import Mathlib

/-!
Verification development for the megastructure sector core:
a shallow embedding of `src/engine/world/tilemap.py`,
`src/engine/world/sector_cache.py`, `src/engine/world/generator.py` and
`src/engine/world/hierarchical_pathfinding.py`, followed by theorems about
the embedded operations.

Modelling conventions:
* Python `int` is `Int`; wall-clock timestamps and float scores are exact
  rationals (`Rat`).  The A* step costs `1.4`/`1.0` become `7/5`/`1`; none of
  the statements proved below depends on binary floating-point rounding
  (the inputs involved only ever produce exact float arithmetic).
* Python exceptions are `Except String`; `try`/`except` blocks are embedded
  by the handlers the source installs (a caught exception keeps every
  mutation made before it was raised, so the embedded functions return the
  partially-updated state exactly where the source does).
* `random` calls consume an explicit oracle stream (`Rng`): `randint a b`
  yields an oracle-chosen value of `[a, b]`, `choice` an oracle-chosen list
  element, `random()` an oracle-chosen rational of `[0, 1)`.  Universally
  quantified theorems therefore cover every sequence of random draws the
  source can make.
* Python dicts preserving insertion order are association lists; `min` over
  dict items returns the leftmost minimal element, as in CPython.
-/

namespace Mega

/-- Tile kinds of `tilemap.py` (`class TileType(Enum)`). -/
inductive TileType where
  | EMPTY
  | FLOOR
  | WALL
  | DOOR
  | DOORS
  | WINDOW
  | WINDOWS
  | TERMINAL
  | TERMINALS
  | CONTAINER
  | CONTAINERS
  | MACHINE
  | MACHINES
  | PILLAR
  | PILLARS
  | LIGHT
  | LIGHTS
deriving DecidableEq, Repr

/-- `Room` dataclass of `tilemap.py`: identity, type tag, rectangle,
connected room ids (a set, modelled as a duplicate-free list) and feature
positions. -/
structure Room where
  id : Nat
  type : String
  x : Int
  y : Int
  width : Int
  height : Int
  connections : List Nat := []
  features : List (String × List (Int × Int)) := []
deriving DecidableEq, Repr

/-- `Room.contains_point`. -/
def Room.containsPoint (r : Room) (px py : Int) : Bool :=
  r.x ≤ px && px < r.x + r.width && r.y ≤ py && py < r.y + r.height

/-- `TileMap` of `tilemap.py`: a `height × width` tile array (row major:
`tiles[y][x]`) plus the room catalog (`self.rooms`, an insertion-ordered
dict id → Room, modelled as the list of rooms in insertion order). -/
structure TileMap where
  width : Int
  height : Int
  tiles : List (List TileType)
  rooms : List Room
deriving DecidableEq, Repr

/-- `TileMap.__init__`: all tiles start `EMPTY`, no rooms. -/
def TileMap.new (width height : Int) : TileMap :=
  { width := width, height := height
    tiles := List.replicate height.toNat (List.replicate width.toNat TileType.EMPTY)
    rooms := [] }

/-- `TileMap.is_valid_position`. -/
def TileMap.isValidPosition (t : TileMap) (x y : Int) : Bool :=
  0 ≤ x && x < t.width && 0 ≤ y && y < t.height

/-- `TileMap.get_tile`: `None` out of bounds. -/
def TileMap.getTile (t : TileMap) (x y : Int) : Option TileType :=
  if t.isValidPosition x y then
    some (((t.tiles.getD y.toNat []).getD x.toNat TileType.EMPTY))
  else
    none

/-- `TileMap.set_tile`: in-place write when in bounds, no-op otherwise. -/
def TileMap.setTile (t : TileMap) (x y : Int) (tile : TileType) : TileMap :=
  if t.isValidPosition x y then
    let row := (t.tiles.getD y.toNat []).set x.toNat tile
    { t with tiles := t.tiles.set y.toNat row }
  else
    t

/-- The random source: an explicit oracle stream of naturals plus a cursor. -/
structure Rng where
  stream : Nat → Nat
  idx : Nat

/-- Draw the next raw oracle value. -/
def Rng.next (r : Rng) : Nat × Rng :=
  (r.stream r.idx, { r with idx := r.idx + 1 })

/-- `random.randint(a, b)`: an oracle-chosen value of `[a, b]`; raises
(`ValueError`) when the range is empty. -/
def randint (a b : Int) (r : Rng) : Except String (Int × Rng) :=
  if b < a then
    .error "empty range for randrange"
  else
    let (k, r2) := r.next
    .ok (a + (k : Int) % (b - a + 1), r2)

/-- `random.random()`: an oracle-chosen rational of `[0, 1)` (granularity
1/5 suffices: the source only compares the draw against `0.2`). -/
def randFloat (r : Rng) : Rat × Rng :=
  let (k, r2) := r.next
  (((k % 5 : Nat) : Rat) / 5, r2)

/-- `random.choice(xs)`: an oracle-chosen element; raises on an empty
list. -/
def randChoice {α : Type} (xs : List α) (r : Rng) : Except String (α × Rng) :=
  match xs with
  | [] => .error "cannot choose from an empty sequence"
  | x :: rest =>
    let (k, r2) := r.next
    .ok ((x :: rest).getD (k % (rest.length + 1)) x, r2)

/-- `random.choices(keys, weights)[0]`: an oracle-chosen key of positive
weight; raises when the population is empty or the total weight is not
positive (elements of weight `≤ 0` are never drawn). -/
def randChoices (pairs : List (String × Rat)) (r : Rng) :
    Except String (String × Rng) :=
  if pairs.isEmpty then
    .error "cannot choose from an empty population"
  else
    let total := (pairs.map (fun p => p.2)).sum
    if total ≤ 0 then
      .error "total of weights must be greater than zero"
    else
      let positives := pairs.filter (fun p => 0 < p.2)
      match positives with
      | [] => .error "total of weights must be greater than zero"
      | q :: rest =>
        let (k, r2) := r.next
        .ok (((q :: rest).getD (k % (rest.length + 1)) q).1, r2)

/-- One stored sector of `sector_cache.py`:
`(sector x, sector y, theme) → (TileMap, creation timestamp)`. -/
abbrev CacheEntry := (Int × Int × String) × TileMap × Rat

/-- `SectorCache` of `sector_cache.py`: an insertion-ordered dict plus the
construction-time capacity and time-to-live. -/
structure SectorCache where
  cache : List CacheEntry
  maxSize : Nat
  ttl : Rat

/-- `SectorCache.get`: hit while fresh, expiry deletes the entry and
misses. -/
def SectorCache.get (c : SectorCache) (x y : Int) (theme : String)
    (now : Rat) : Option TileMap × SectorCache :=
  let key := (x, y, theme)
  match c.cache.find? (fun e => decide (e.1 = key)) with
  | none => (none, c)
  | some e =>
    if now - e.2.2 ≤ c.ttl then
      (some e.2.1, c)
    else
      (none, { c with cache := c.cache.eraseP (fun e2 => decide (e2.1 = key)) })

/-- `min(self._cache.items(), key=lambda x: x[1][1])`: the leftmost entry
with minimal timestamp (CPython `min` keeps the first minimum). -/
def oldestEntry (entries : List CacheEntry) : Option CacheEntry :=
  match entries with
  | [] => none
  | e :: rest =>
    some (rest.foldl (fun best e2 => if e2.2.2 < best.2.2 then e2 else best) e)

/-- `SectorCache.put`: evict the oldest entry when at capacity, then
insert (overwriting in place when the key already exists).  `min` over an
empty dict raises `ValueError`. -/
def SectorCache.put (c : SectorCache) (x y : Int) (theme : String)
    (tm : TileMap) (now : Rat) : Except String SectorCache :=
  let evicted : Except String (List CacheEntry) :=
    if c.maxSize ≤ c.cache.length then
      match oldestEntry c.cache with
      | none => Except.error "min arg is an empty sequence"
      | some ev => Except.ok (c.cache.eraseP (fun e => decide (e.1 = ev.1)))
    else
      Except.ok c.cache
  match evicted with
  | Except.error msg => Except.error msg
  | Except.ok entries =>
    let key := (x, y, theme)
    if entries.any (fun e => decide (e.1 = key)) then
      Except.ok { c with
        cache := entries.map (fun e => if e.1 = key then (key, tm, now) else e) }
    else
      Except.ok { c with cache := entries ++ [(key, tm, now)] }

/-- `SectorCache.remove`. -/
def SectorCache.remove (c : SectorCache) (x y : Int) (theme : String) :
    SectorCache :=
  { c with cache := c.cache.eraseP (fun e => decide (e.1 = (x, y, theme))) }

/-- `SectorCache.size`. -/
def SectorCache.size (c : SectorCache) : Nat :=
  c.cache.length

/-- A concrete stored grid for the cache witnesses. -/
def tmSample : TileMap :=
  TileMap.new 1 1

/-- A concrete two-entry cache at capacity 2 whose second entry is the
older one. -/
def cacheSampleFull : SectorCache :=
  { cache := [((0, 0, "a"), tmSample, 5), ((1, 0, "a"), tmSample, 3)]
    maxSize := 2, ttl := 300 }

/-- A concrete one-entry cache with time-to-live 300. -/
def cacheSampleOne : SectorCache :=
  { cache := [((0, 0, "t"), tmSample, 0)], maxSize := 100, ttl := 300 }

/-- Per-room-type generation rules of the config mapping
(`room_types: name -> fields`); `Option` models a missing key. -/
structure RoomTypeCfg where
  min_size : Option (List Int)
  max_size : Option (List Int)
  min_door_width : Option Int
deriving DecidableEq, Repr

/-- A theme entry of the config mapping: its `room_weights` dict (an
absent `room_weights` key reads as the empty dict via `.get`). -/
structure ThemeCfg where
  room_weights : List (String × Rat)
deriving DecidableEq, Repr

/-- The generation-rules dict handed to the generator.  Each top-level
section is optional (a missing key); `connection_rules` contents are never
read by the generator, only checked for presence. -/
structure GenRules where
  room_types : Option (List (String × RoomTypeCfg))
  connection_rules : Option Unit
  themes : Option (List (String × ThemeCfg))
deriving DecidableEq, Repr

/-- The per-room-type body of `_validate_rules`: the three required fields
present, both sizes two-element, min componentwise at most max. -/
def validateRoomType (name : String) (cfg : RoomTypeCfg) :
    Except String Unit :=
  match cfg.min_size with
  | none => Except.error ("Missing required field min_size for room type " ++ name)
  | some ms =>
    match cfg.max_size with
    | none => Except.error ("Missing required field max_size for room type " ++ name)
    | some xs =>
      match cfg.min_door_width with
      | none =>
        Except.error ("Missing required field min_door_width for room type " ++ name)
      | some _ =>
        if ms.length ≠ 2 ∨ xs.length ≠ 2 then
          Except.error ("Invalid size dimensions for room type " ++ name)
        else if ms.getD 0 0 > xs.getD 0 0 ∨ ms.getD 1 0 > xs.getD 1 0 then
          Except.error ("Min size larger than max size for room type " ++ name)
        else
          Except.ok ()

/-- The room-type loop of `_validate_rules`, first failure wins. -/
def validateRoomTypes : List (String × RoomTypeCfg) → Except String Unit
  | [] => Except.ok ()
  | (n, cfg) :: rest =>
    match validateRoomType n cfg with
    | Except.error e => Except.error e
    | Except.ok _ => validateRoomTypes rest

/-- `MegastructureGenerator._validate_rules`: the required sections are
`room_types` and `connection_rules` (not `themes`), then every room type
is validated. -/
def validateRules (r : GenRules) : Except String Unit :=
  match r.room_types with
  | none => Except.error "Missing required section room_types in generation rules"
  | some rts =>
    match r.connection_rules with
    | none =>
      Except.error "Missing required section connection_rules in generation rules"
    | some _ => validateRoomTypes rts

/-- The generator object: the loaded rules and the mutable default theme
(`industrial`). -/
structure Generator where
  rules : GenRules
  current_theme : String
deriving DecidableEq, Repr

/-- `MegastructureGenerator.__init__`: validate once; a validation error
is a hard construction failure. -/
def mkGenerator (rules : GenRules) : Except String Generator :=
  match validateRules rules with
  | Except.error e => Except.error e
  | Except.ok _ => Except.ok { rules := rules, current_theme := "industrial" }

/-! ### Generic association-list dict operations (insertion-ordered
Python dicts). -/

/-- Dict read: value of the first (unique) entry with the given key. -/
def lookupA {a b : Type} [DecidableEq a] (l : List (a × b)) (k : a) :
    Option b :=
  (l.find? (fun p => decide (p.1 = k))).map (fun p => p.2)

/-- Dict write: overwrite in place when the key exists, append
otherwise. -/
def updateA {a b : Type} [DecidableEq a] (l : List (a × b)) (k : a) (v : b) :
    List (a × b) :=
  if l.any (fun p => decide (p.1 = k)) then
    l.map (fun p => if p.1 = k then (k, v) else p)
  else
    l ++ [(k, v)]

/-- `range(lo, hi)` over `Int`, empty when `hi ≤ lo`. -/
def intRange (lo hi : Int) : List Int :=
  (List.range (hi - lo).toNat).map (fun i => lo + (i : Int))

/-- `random.choice` on a nonempty list: an oracle-chosen element. -/
def choiceNE {a : Type} (x : a) (xs : List a) (r : Rng) : a × Rng :=
  let (k, r2) := r.next
  ((x :: xs).getD (k % (xs.length + 1)) x, r2)

/-! ### `MegastructureGenerator` (generator.py) -/

/-- `MegastructureGenerator._is_inside_room`. -/
def isInsideRoom (x y : Int) (r : Room) : Bool :=
  r.x ≤ x && x < r.x + r.width && r.y ≤ y && y < r.y + r.height

/-- `|a - b|` in both axes summed: the Manhattan heuristic used by every
A* in the source. -/
def manhattan (a b : Int × Int) : Int :=
  ((a.1 - b.1).natAbs : Int) + ((a.2 - b.2).natAbs : Int)

/-- The `padding = 2` candidate-overlap test of `_generate_rooms`
(the strict inequalities of the source, verbatim). -/
def overlapsPadded (x y w h : Int) (r : Room) : Bool :=
  (x - 2 < r.x + r.width + 2) && (x + w + 2 > r.x - 2) &&
  (y - 2 < r.y + r.height + 2) && (y + h + 2 > r.y - 2)

/-- Interior floor stamping of an accepted room (`_generate_rooms`). -/
def stampRoomFloors (t : TileMap) (x y w h : Int) : TileMap :=
  (intRange x (x + w)).foldl
    (fun t1 rx =>
      (intRange y (y + h)).foldl
        (fun t2 ry => t2.setTile rx ry TileType.FLOOR) t1)
    t

/-- Perimeter wall stamping of an accepted room (`_generate_rooms`);
`set_tile` already performs the `is_valid_position` guard of the
source. -/
def stampRoomWalls (t : TileMap) (x y w h : Int) : TileMap :=
  let t1 := (intRange (x - 1) (x + w + 1)).foldl
    (fun tt rx =>
      (tt.setTile rx (y - 1) TileType.WALL).setTile rx (y + h) TileType.WALL)
    t
  (intRange (y - 1) (y + h + 1)).foldl
    (fun tt ry =>
      (tt.setTile (x - 1) ry TileType.WALL).setTile (x + w) ry TileType.WALL)
    t1

/-- The body of the `while` loop of `_generate_rooms`, recursing on the
remaining attempt budget (the source increments `attempts` on every
iteration).  Any exception of the loop body (empty or non-positive
weights, a room type absent from `room_types`, missing or too-short size
fields, an empty `randint` range) is caught by the `except` of
`_generate_rooms`, which returns the rooms accepted so far together with
every tile mutation already made. -/
def generateRoomsLoop (rules : GenRules) (room_weights : List (String × Rat))
    (min_rooms max_rooms : Int) (fuel : Nat) (t : TileMap)
    (rooms : List Room) (room_id : Nat) (rng : Rng) :
    TileMap × List Room × Rng :=
  match fuel with
  | 0 => (t, rooms, rng)
  | fuel + 1 =>
    if (rooms.length : Int) < max_rooms then
      match randChoices room_weights rng with
      | Except.error _ => (t, rooms, rng)
      | Except.ok (room_type, rng1) =>
        match rules.room_types with
        | none => (t, rooms, rng1)
        | some rts =>
          match lookupA rts room_type with
          | none => (t, rooms, rng1)
          | some rr =>
            match rr.min_size, rr.max_size with
            | some ms, some xs =>
              match ms.get? 0, xs.get? 0, ms.get? 1, xs.get? 1 with
              | some ms0, some xs0, some ms1, some xs1 =>
                match randint ms0 xs0 rng1 with
                | Except.error _ => (t, rooms, rng1)
                | Except.ok (w, rng2) =>
                  match randint ms1 xs1 rng2 with
                  | Except.error _ => (t, rooms, rng2)
                  | Except.ok (h, rng3) =>
                    match randint 2 (t.width - w - 2) rng3 with
                    | Except.error _ => (t, rooms, rng3)
                    | Except.ok (x, rng4) =>
                      match randint 2 (t.height - h - 2) rng4 with
                      | Except.error _ => (t, rooms, rng4)
                      | Except.ok (y, rng5) =>
                        if rooms.any (fun r => overlapsPadded x y w h r) then
                          generateRoomsLoop rules room_weights min_rooms
                            max_rooms fuel t rooms room_id rng5
                        else
                          let room : Room :=
                            ⟨room_id, room_type, x, y, w, h, [], []⟩
                          let rooms2 := rooms ++ [room]
                          let tA := stampRoomFloors t x y w h
                          let tB := stampRoomWalls tA x y w h
                          let tC := { tB with rooms := tB.rooms ++ [room] }
                          if min_rooms ≤ (rooms2.length : Int) then
                            let (coin, rng6) := randFloat rng5
                            if coin < (1 : Rat) / 5 then (tC, rooms2, rng6)
                            else
                              generateRoomsLoop rules room_weights min_rooms
                                max_rooms fuel tC rooms2 (room_id + 1) rng6
                          else
                            generateRoomsLoop rules room_weights min_rooms
                              max_rooms fuel tC rooms2 (room_id + 1) rng5
              | _, _, _, _ => (t, rooms, rng1)
            | _, _ => (t, rooms, rng1)
    else
      (t, rooms, rng)

/-- `MegastructureGenerator._generate_rooms` with its
`max_attempts = 100` budget, starting from an empty room list and
`room_id = 0`. -/
def generateRooms (rules : GenRules) (t : TileMap)
    (room_weights : List (String × Rat)) (min_rooms max_rooms : Int)
    (rng : Rng) : TileMap × List Room × Rng :=
  generateRoomsLoop rules room_weights min_rooms max_rooms 100 t [] 0 rng

/-- The candidate positions of `_find_valid_door_position`, in source
order: top wall, bottom wall, left wall, right wall. -/
def doorCandidatePositions (t : TileMap) (room : Room) : List (Int × Int) :=
  ((intRange (room.x + 1) (room.x + room.width - 1)).filter
      (fun x => t.isValidPosition x (room.y - 1))).map
    (fun x => (x, room.y - 1)) ++
  ((intRange (room.x + 1) (room.x + room.width - 1)).filter
      (fun x => t.isValidPosition x (room.y + room.height))).map
    (fun x => (x, room.y + room.height)) ++
  ((intRange (room.y + 1) (room.y + room.height - 1)).filter
      (fun y => t.isValidPosition (room.x - 1) y)).map
    (fun y => (room.x - 1, y)) ++
  ((intRange (room.y + 1) (room.y + room.height - 1)).filter
      (fun y => t.isValidPosition (room.x + room.width) y)).map
    (fun y => (room.x + room.width, y))

/-- The 8 neighbour offsets of `_find_valid_door_position`, in source
order (`dx` outer, `dy` inner, skipping `(0, 0)`). -/
def doorNeighbourDeltas : List (Int × Int) :=
  [(-1, -1), (-1, 0), (-1, 1), (0, -1), (0, 1), (1, -1), (1, 0), (1, 1)]

/-- One step of the neighbour loop of `_find_valid_door_position`:
convert the adjacent tile to floor when it is currently empty or
wall. -/
def doorFloorStep (pos : Int × Int) (tt : TileMap) (d : Int × Int) :
    TileMap :=
  match tt.getTile (pos.1 + d.1) (pos.2 + d.2) with
  | some TileType.EMPTY => tt.setTile (pos.1 + d.1) (pos.2 + d.2) TileType.FLOOR
  | some TileType.WALL => tt.setTile (pos.1 + d.1) (pos.2 + d.2) TileType.FLOOR
  | _ => tt

/-- `MegastructureGenerator._find_valid_door_position`: pick an
oracle-chosen perimeter position, stamp a `DOOR` there, convert every
adjacent `EMPTY` or `WALL` tile to `FLOOR`, and return the position;
`none` (without mutation) when no candidate exists, or when
`self.rules["room_types"]` is missing (a `KeyError` caught by the
source before any mutation). -/
def findValidDoorPosition (rules : GenRules) (t : TileMap) (room : Room)
    (rng : Rng) : Option (Int × Int) × TileMap × Rng :=
  match rules.room_types with
  | none => (none, t, rng)
  | some _ =>
    match doorCandidatePositions t room with
    | [] => (none, t, rng)
    | p :: rest =>
      let (pos, rng2) := choiceNE p rest rng
      let t1 := t.setTile pos.1 pos.2 TileType.DOOR
      (some pos, doorNeighbourDeltas.foldl (doorFloorStep pos) t1, rng2)

/-- The open-list entries of `_find_path`: `(f_score, g_score,
position)`. -/
abbrev OpenEntry := Int × Int × (Int × Int)

/-- `min(open_list, key=lambda x: (x[0], x[1]))`: the leftmost entry
minimal in the lexicographic `(f, g)` order. -/
def openMinGen (l : List OpenEntry) : Option OpenEntry :=
  match l with
  | [] => none
  | a :: rest =>
    some (rest.foldl
      (fun best e =>
        if e.1 < best.1 ∨ (e.1 = best.1 ∧ e.2.1 < best.2.1) then e else best)
      a)

/-- Path reconstruction of `_find_path`: follow `previous` until a node
without predecessor, append `start`, reverse.  The fuel (one more than
the size of `previous`) exceeds the length of any acyclic predecessor
chain. -/
def reconstructGen (previous : List ((Int × Int) × (Int × Int)))
    (fuel : Nat) (current start : Int × Int) (acc : List (Int × Int)) :
    List (Int × Int) :=
  match fuel with
  | 0 => (acc ++ [start]).reverse
  | fuel + 1 =>
    match lookupA previous current with
    | some prev => reconstructGen previous fuel prev start (acc ++ [current])
    | none => (acc ++ [start]).reverse

/-- The cardinal moves of `_find_path`, in source order. -/
def genMovements : List (Int × Int) :=
  [(0, 1), (0, -1), (1, 0), (-1, 0)]

/-- The `while open_list` loop of `_find_path`.  Each iteration pops the
minimal `(f, g)` node, closes it, and relaxes the four cardinal
neighbours (walls cost 10 extra, room interiors other than the endpoints
are skipped).  The fuel bounds the iteration count; every popped
position is fresh and in bounds, so `width * height + 1` iterations are
never exhausted on a terminating source run. -/
def findPathLoopGen (t : TileMap) (start goal : Int × Int) (fuel : Nat)
    (openL : List OpenEntry) (closed : List (Int × Int))
    (gScore : List ((Int × Int) × Int))
    (previous : List ((Int × Int) × (Int × Int))) :
    Option (List (Int × Int)) :=
  match fuel with
  | 0 => none
  | fuel + 1 =>
    match openMinGen openL with
    | none => none
    | some (_, gcur, current) =>
      if current = goal then
        some (reconstructGen previous (previous.length + 1) current start [])
      else
        let openL1 := openL.filter (fun e => decide (e.2.2 ≠ current))
        let closed1 := closed ++ [current]
        let relaxed := genMovements.foldl
          (fun (st : List OpenEntry × List ((Int × Int) × Int) ×
              List ((Int × Int) × (Int × Int))) d =>
            let (o, gs, pv) := st
            let nb := (current.1 + d.1, current.2 + d.2)
            if closed1.any (fun c => decide (c = nb)) ||
                !(t.isValidPosition nb.1 nb.2) then
              st
            else if decide (nb ≠ start) && decide (nb ≠ goal) &&
                t.rooms.any (fun r => isInsideRoom nb.1 nb.2 r) then
              st
            else
              let tentative := gcur + 1 +
                (if t.getTile nb.1 nb.2 = some TileType.WALL then 10 else 0)
              let better := match lookupA gs nb with
                | none => true
                | some gn => decide (tentative < gn)
              if better then
                let pv2 := updateA pv nb current
                let gs2 := updateA gs nb tentative
                let fs := tentative + manhattan nb goal
                let o2 := if o.any (fun e => decide (e.2.2 = nb)) then o
                  else o ++ [(fs, tentative, nb)]
                (o2, gs2, pv2)
              else
                st)
          (openL1, gScore, previous)
        findPathLoopGen t start goal fuel relaxed.1 closed1 relaxed.2.1
          relaxed.2.2

/-- `MegastructureGenerator._find_path`: cardinal A* between two valid
positions; `None` when an endpoint is out of bounds or the search
exhausts. -/
def findPathGen (t : TileMap) (start goal : Int × Int) :
    Option (List (Int × Int)) :=
  if t.isValidPosition start.1 start.2 && t.isValidPosition goal.1 goal.2 then
    findPathLoopGen t start goal (t.width.toNat * t.height.toNat + 1)
      [(manhattan start goal, 0, start)] [] [(start, 0)] []
  else
    none

/-- `Edge` dataclass of `generator.py`; the source stores the float
Euclidean distance between room centres and sorts by it, which orders
edges identically to the exact squared distance kept here (square root
is strictly monotone; none of the theorems below depends on the order of
equal-distance edges). -/
structure Edge where
  distance2 : Int
  room1 : Room
  room2 : Room
deriving DecidableEq, Repr

/-- Room centre `(x + width // 2, y + height // 2)` (Python floor
division). -/
def roomCenter (r : Room) : Int × Int :=
  (r.x + r.width.fdiv 2, r.y + r.height.fdiv 2)

/-- Squared distance between room centres. -/
def centerDist2 (r1 r2 : Room) : Int :=
  let c1 := roomCenter r1
  let c2 := roomCenter r2
  (c1.1 - c2.1) ^ 2 + (c1.2 - c2.2) ^ 2

/-- All unordered room pairs in source order (`for i, room1 in
enumerate(rooms): for room2 in rooms[i+1:]`). -/
def buildEdges : List Room → List Edge
  | [] => []
  | r :: rest => rest.map (fun r2 => ⟨centerDist2 r r2, r, r2⟩) ++ buildEdges rest

/-- `edges.sort()` (stable, ascending distance). -/
def sortEdges (edges : List Edge) : List Edge :=
  edges.mergeSort (fun e1 e2 => decide (e1.distance2 ≤ e2.distance2))

/-- Corridor stamping for one MST edge (`_connect_rooms`): floor every
path cell outside all rooms, and wall every `EMPTY` cardinal neighbour
of a freshly floored cell that is outside all rooms. -/
def carveCorridor (t : TileMap) (rooms : List Room)
    (path : List (Int × Int)) : TileMap :=
  path.foldl
    (fun tt pos =>
      if rooms.any (fun r => isInsideRoom pos.1 pos.2 r) then tt
      else
        let tt1 := tt.setTile pos.1 pos.2 TileType.FLOOR
        ([(-1, 0), (1, 0), (0, -1), (0, 1)] : List (Int × Int)).foldl
          (fun tt2 d =>
            let wx := pos.1 + d.1
            let wy := pos.2 + d.2
            if tt2.isValidPosition wx wy &&
                !(rooms.any (fun r => isInsideRoom wx wy r)) &&
                decide (tt2.getTile wx wy = some TileType.EMPTY) then
              tt2.setTile wx wy TileType.WALL
            else tt2)
          tt1)
    t

/-- Floor-only stamping of the redundant-connection loop. -/
def stampFloorsOnPath (t : TileMap) (rooms : List Room)
    (path : List (Int × Int)) : TileMap :=
  path.foldl
    (fun tt pos =>
      if rooms.any (fun r => isInsideRoom pos.1 pos.2 r) then tt
      else tt.setTile pos.1 pos.2 TileType.FLOOR)
    t

/-- Insert into a set of room ids (`set.add`). -/
def insertId (l : List Nat) (i : Nat) : List Nat :=
  if l.any (fun j => decide (j = i)) then l else l ++ [i]

/-- `room1.connections.add(room2.id); room2.connections.add(room1.id)` on
the shared room objects of `tilemap.rooms`. -/
def addConnectionById (t : TileMap) (i j : Nat) : TileMap :=
  { t with rooms := t.rooms.map (fun r =>
      if r.id = i then { r with connections := insertId r.connections j }
      else if r.id = j then { r with connections := insertId r.connections i }
      else r) }

/-- The inner `for edge in edges` scan of the MST loop: find the first
edge between the connected and the unconnected set whose two door
searches and path check all succeed; door searches mutate the grid even
for edges that end up skipped. -/
def scanEdges (rules : GenRules) (t : TileMap) (edges : List Edge)
    (connected : List Nat) (rng : Rng) :
    Option (Edge × (Int × Int) × (Int × Int)) × TileMap × Rng :=
  match edges with
  | [] => (none, t, rng)
  | e :: rest =>
    if (connected.any (fun i => decide (i = e.room1.id))) !=
        (connected.any (fun i => decide (i = e.room2.id))) then
      let r1 := findValidDoorPosition rules t e.room1 rng
      match r1.1 with
      | none => scanEdges rules r1.2.1 rest connected r1.2.2
      | some p1 =>
        let r2 := findValidDoorPosition rules r1.2.1 e.room2 r1.2.2
        match r2.1 with
        | none => scanEdges rules r2.2.1 rest connected r2.2.2
        | some p2 =>
          match findPathGen r2.2.1 p1 p2 with
          | some (_ :: _) => (some (e, p1, p2), r2.2.1, r2.2.2)
          | _ => scanEdges rules r2.2.1 rest connected r2.2.2
    else
      scanEdges rules t rest connected rng

/-- The fallback branch of the MST loop: when no edge is usable, stamp a
door on each still-unconnected room (set-iteration order modelled as
room-list order) and stop. -/
def fallbackDoors (rules : GenRules) (t : TileMap) (rooms : List Room)
    (remaining : List Nat) (rng : Rng) : TileMap × Rng :=
  (rooms.filter (fun r => remaining.any (fun i => decide (i = r.id)))).foldl
    (fun (st : TileMap × Rng) r =>
      match findValidDoorPosition rules st.1 r st.2 with
      | (some p, t1, rng1) => (t1.setTile p.1 p.2 TileType.DOOR, rng1)
      | (none, t1, rng1) => (t1, rng1))
    (t, rng)

/-- The `while remaining_rooms` MST loop of `_connect_rooms`.  A
successful iteration carves the corridor, stamps both doors, records the
symmetric connection and moves the bridged room out of `remaining`; a
failed scan runs the fallback and stops.  Each successful iteration
shrinks `remaining` by one, so `rooms.length` fuel is never exhausted
(the path re-check cannot differ from the scan that just succeeded on
the identical grid). -/
def mstLoop (rules : GenRules) (t : TileMap) (edges : List Edge)
    (rooms : List Room) (fuel : Nat) (connected remaining : List Nat)
    (rng : Rng) : TileMap × Rng :=
  match fuel with
  | 0 => (t, rng)
  | fuel + 1 =>
    match remaining with
    | [] => (t, rng)
    | _ :: _ =>
      match scanEdges rules t edges connected rng with
      | (none, t1, rng1) => fallbackDoors rules t1 rooms remaining rng1
      | (some (e, p1, p2), t1, rng1) =>
        match findPathGen t1 p1 p2 with
        | some (q :: qs) =>
          let t2 := carveCorridor t1 rooms (q :: qs)
          let t3 := (t2.setTile p1.1 p1.2 TileType.DOOR).setTile p2.1 p2.2
            TileType.DOOR
          let t4 := addConnectionById t3 e.room1.id e.room2.id
          let c2 := if remaining.any (fun i => decide (i = e.room1.id)) then
              insertId connected e.room1.id
            else connected
          let rem2 := remaining.filter (fun i => decide (i ≠ e.room1.id))
          let c3 := if rem2.any (fun i => decide (i = e.room2.id)) then
              insertId c2 e.room2.id
            else c2
          let rem3 := rem2.filter (fun i => decide (i ≠ e.room2.id))
          mstLoop rules t4 edges rooms fuel c3 rem3 rng1
        | _ => mstLoop rules t1 edges rooms fuel connected remaining rng1

/-- One iteration of the redundant-connection loop of `_connect_rooms`:
with probability one half, search doors on both rooms (mutating!) and
floor the connecting path (no walls, no door re-stamp, no recorded
connection). -/
def redundantStep (rules : GenRules) (rooms : List Room)
    (st : TileMap × Rng) (e : Edge) : TileMap × Rng :=
  let (t, rng) := st
  let (coin, rng1) := randFloat rng
  if coin < (1 : Rat) / 2 then
    match findValidDoorPosition rules t e.room1 rng1 with
    | (d1, t1, rng2) =>
      match findValidDoorPosition rules t1 e.room2 rng2 with
      | (d2, t2, rng3) =>
        match d1, d2 with
        | some p1, some p2 =>
          match findPathGen t2 p1 p2 with
          | some (q :: qs) => (stampFloorsOnPath t2 rooms (q :: qs), rng3)
          | _ => (t2, rng3)
        | _, _ => (t2, rng3)
  else
    (t, rng1)

/-- `MegastructureGenerator._connect_rooms`: build and sort the edges,
run the MST loop from `rooms[0]`, then try redundant extra corridors on
the `len(rooms) // 2` shortest edges. -/
def connectRooms (rules : GenRules) (t : TileMap) (rooms : List Room)
    (rng : Rng) : TileMap × Rng :=
  match rooms with
  | [] => (t, rng)
  | r0 :: rest =>
    let edges := sortEdges (buildEdges (r0 :: rest))
    let (t1, rng1) := mstLoop rules t edges (r0 :: rest)
      (r0 :: rest).length [r0.id] (rest.map (fun r => r.id)) rng
    (edges.take ((r0 :: rest).length / 2)).foldl
      (redundantStep rules (r0 :: rest)) (t1, rng1)

/-- `MegastructureGenerator._add_sector_connections`: pick a random
entrance room and a different exit room and stamp one door on each; the
`IndexError` of `random.choice([])` for a single-room sector is caught
by the source and leaves the grid untouched. -/
def addSectorConnections (rules : GenRules) (t : TileMap)
    (rooms : List Room) (rng : Rng) : TileMap × Rng :=
  match rooms with
  | [] => (t, rng)
  | r0 :: rest =>
    let (entrance, rng1) := choiceNE r0 rest rng
    match (r0 :: rest).filter (fun r => decide (¬ (r.id = entrance.id))) with
    | [] => (t, rng1)
    | o :: os =>
      let (exitRoom, rng2) := choiceNE o os rng1
      match findValidDoorPosition rules t entrance rng2 with
      | (d1, t1, rng3) =>
        let t1b := match d1 with
          | some p => t1.setTile p.1 p.2 TileType.DOOR
          | none => t1
        match findValidDoorPosition rules t1b exitRoom rng3 with
        | (d2, t2, rng4) =>
          let t2b := match d2 with
            | some p => t2.setTile p.1 p.2 TileType.DOOR
            | none => t2
          (t2b, rng4)

/-- `self.rules.get("themes", {}).get(theme)` of `generate_sector`. -/
def themeConfigOf (rules : GenRules) (theme : Option String) :
    Option ThemeCfg :=
  match rules.themes with
  | none => none
  | some ts =>
    match theme with
    | none => none
    | some th => lookupA ts th

/-- The theme configuration actually used by `generate_sector`: the
looked-up theme, or the default `room_weights = corridor: 1.0` fallback
when the theme is unknown or the `themes` section is absent. -/
def effectiveThemeConfig (rules : GenRules) (theme : Option String) :
    ThemeCfg :=
  (themeConfigOf rules theme).getD ⟨[("corridor", 1)]⟩

/-- `min_rooms or 5` / `max_rooms or 15` (Python `or`: `None` and `0`
both fall back). -/
def orDefault (v : Option Int) (dflt : Int) : Int :=
  match v with
  | some m => if m = 0 then dflt else m
  | none => dflt

/-- The body of `generate_sector` after the dimension check: generate
rooms, connect them, and add entrance and exit when at least two rooms
exist. -/
def generateBody (g : Generator) (room_weights : List (String × Rat))
    (t0 : TileMap) (min_rooms max_rooms : Option Int) (rng : Rng) :
    TileMap × Rng :=
  let (t1, rooms, rng1) := generateRooms g.rules t0 room_weights
    (orDefault min_rooms 5) (orDefault max_rooms 15) rng
  let (t2, rng2) := connectRooms g.rules t1 rooms rng1
  if 2 ≤ rooms.length then addSectorConnections g.rules t2 rooms rng2
  else (t2, rng2)

/-- `MegastructureGenerator.generate_sector`.  Raises (`ValueError`)
exactly for non-positive dimensions; everything afterwards runs inside
`try`, whose only uncaught exception point is the `corridor_ratio`
weight adjustment dividing by `len(room_weights) - 1 = 0`, handled by
returning the fresh empty fallback grid.  The `current_theme` update of
the source only affects later calls and is not modelled. -/
def generateSector (g : Generator) (width height : Int)
    (theme : Option String) (min_rooms max_rooms : Option Int)
    (corridor_ratio : Option Rat) (rng : Rng) :
    Except String (TileMap × Rng) :=
  if width ≤ 0 ∨ height ≤ 0 then
    Except.error "Invalid sector dimensions"
  else
    let t0 := TileMap.new width height
    let tc := effectiveThemeConfig g.rules theme
    match corridor_ratio with
    | some cr =>
      if tc.room_weights.length = 1 then
        Except.ok (TileMap.new width height, rng)
      else
        let ncr := (1 - cr) / ((tc.room_weights.length : Rat) - 1)
        let ws := tc.room_weights.map
          (fun p => (p.1, if p.1 = "corridor" then cr else ncr))
        Except.ok (generateBody g ws t0 min_rooms max_rooms rng)
    | none =>
      Except.ok (generateBody g tc.room_weights t0 min_rooms max_rooms rng)

/-! ### `HierarchicalPathfinder` (hierarchical_pathfinding.py) -/

/-- `PathNode` of the hierarchical pathfinder: f-score, position,
g-score and parent link.  Scores are exact rationals (see the module
comment). -/
inductive PNode where
  | mk (fScore : Rat) (position : Int × Int) (gScore : Rat)
      (parent : Option PNode)

/-- f-score accessor. -/
def PNode.fScore : PNode → Rat
  | .mk f _ _ _ => f

/-- Position accessor. -/
def PNode.position : PNode → Int × Int
  | .mk _ p _ _ => p

/-- Parent-chain positions from a node to the root (the source builds
this list then reverses it). -/
def PNode.chain : PNode → List (Int × Int)
  | .mk _ p _ none => [p]
  | .mk _ p _ (some par) => p :: PNode.chain par

/-- `heapq.heappop`: remove and return a node of minimal f-score.
`heapq` resolves ties among equal f-scores by heap-array order; this
model takes the leftmost minimal node.  No statement below depends on
the order in which equal-f nodes are popped. -/
def heapPop (l : List PNode) : Option (PNode × List PNode) :=
  match l with
  | [] => none
  | a :: rest =>
    let fmin := rest.foldl (fun m n => if n.fScore < m then n.fScore else m)
      a.fScore
    match (a :: rest).find? (fun n => decide (n.fScore = fmin)) with
    | some n =>
      some (n, (a :: rest).eraseP (fun m => decide (m.fScore = fmin)))
    | none => none

/-- `_create_abstract_grid`: one walkability flag per chunk, `False`
when strictly more than a quarter of the chunk tiles are walls. -/
def createAbstractGrid (t : TileMap) (cs : Int) : List (List Bool) :=
  let chunk_h := (t.height + cs - 1).fdiv cs
  let chunk_w := (t.width + cs - 1).fdiv cs
  (intRange 0 chunk_h).map (fun cy =>
    (intRange 0 chunk_w).map (fun cx =>
      let x1 := cx * cs
      let y1 := cy * cs
      let x2 := min (x1 + cs) t.width
      let y2 := min (y1 + cs) t.height
      let obstacles := ((intRange y1 y2).map (fun y =>
        ((intRange x1 x2).filter
          (fun x => decide (t.getTile x y = some TileType.WALL))).length)).sum
      let total := (y2 - y1).toNat * (x2 - x1).toNat
      !(decide ((obstacles : Rat) / (total : Rat) > 1 / 4))))

/-- `_get_neighbors` over the abstract grid: 4-directional, in bounds,
walkable. -/
def abstractNeighbors (pos : Int × Int) (grid : List (List Bool)) :
    List (Int × Int) :=
  let h := (grid.length : Int)
  let w := ((grid.getD 0 []).length : Int)
  ([(0, 1), (1, 0), (0, -1), (-1, 0)] : List (Int × Int)).filterMap
    (fun d =>
      let nx := pos.1 + d.1
      let ny := pos.2 + d.2
      if 0 ≤ nx && nx < w && 0 ≤ ny && ny < h &&
          (grid.getD ny.toNat []).getD nx.toNat false then
        some (nx, ny)
      else
        none)

/-- The common `while open_set` A* loop of `_abstract_path` and
`_detailed_path`: pop the minimal node, stop at the goal, close the
position, relax the successors.  `tentative_g` reads the g-scores dict
at the popped position; a missing key would be a `KeyError`
(`Except.error`), proved unreachable below.  `Except.ok []` is both the
exhausted-open-set result of the source and the (never reached)
fuel cap. -/
def astarLoop (succ : (Int × Int) → List ((Int × Int) × Rat))
    (heur : (Int × Int) → Rat) (goal : Int × Int) (fuel : Nat)
    (openSet : List PNode) (closed : List (Int × Int))
    (gScores : List ((Int × Int) × Rat)) :
    Except String (List (Int × Int)) :=
  match fuel with
  | 0 => Except.ok []
  | fuel + 1 =>
    match heapPop openSet with
    | none => Except.ok []
    | some (current, open1) =>
      if current.position = goal then
        Except.ok current.chain.reverse
      else
        let closed1 := closed ++ [current.position]
        match lookupA gScores current.position with
        | none => Except.error "KeyError: position missing from g_scores"
        | some gcur =>
          let relaxed := (succ current.position).foldl
            (fun (st : List PNode × List ((Int × Int) × Rat)) nc =>
              let (o, gs) := st
              if closed1.any (fun c => decide (c = nc.1)) then st
              else
                let tentative := gcur + nc.2
                let better := match lookupA gs nc.1 with
                  | none => true
                  | some gn => decide (tentative < gn)
                if better then
                  (o ++ [PNode.mk (tentative + heur nc.1) nc.1 tentative
                    (some current)], updateA gs nc.1 tentative)
                else st)
            (open1, gScores)
          astarLoop succ heur goal fuel relaxed.1 closed1 relaxed.2

/-- `_abstract_path`: 4-directional A* over chunk coordinates with unit
step cost and Manhattan heuristic. -/
def abstractPath (start goal : Int × Int) (grid : List (List Bool)) :
    Except String (List (Int × Int)) :=
  let cells := grid.length * (grid.getD 0 []).length
  astarLoop (fun p => (abstractNeighbors p grid).map (fun q => (q, 1)))
    (fun p => (manhattan p goal : Int)) goal ((cells + 2) * (cells + 2))
    [PNode.mk 0 start 0 none] [] [(start, 0)]

/-- The 8 moves of `_detailed_path` in source order, with their costs
(diagonal `1.4 = 7/5`, cardinal `1.0`). -/
def detailedSucc (t : TileMap) (pos : Int × Int) :
    List ((Int × Int) × Rat) :=
  ([(0, 1), (1, 0), (0, -1), (-1, 0), (1, 1), (-1, 1), (1, -1), (-1, -1)] :
      List (Int × Int)).filterMap
    (fun d =>
      let nx := pos.1 + d.1
      let ny := pos.2 + d.2
      if nx < 0 || nx ≥ t.width || ny < 0 || ny ≥ t.height ||
          decide (t.getTile nx ny = some TileType.WALL) then
        none
      else
        some ((nx, ny),
          if decide (d.1 ≠ 0) && decide (d.2 ≠ 0) then (7 : Rat) / 5 else 1))

/-- `_detailed_path`: 8-directional tile-level A*. -/
def detailedPath (t : TileMap) (start goal : Int × Int) :
    Except String (List (Int × Int)) :=
  let cells := (t.width.toNat + 2) * (t.height.toNat + 2)
  astarLoop (detailedSucc t) (fun p => (manhattan p goal : Int)) goal
    ((cells + 2) * (cells + 2)) [PNode.mk 0 start 0 none] [] [(start, 0)]

/-- `_find_crossing_points`: tile pairs along the shared chunk boundary
where neither side is a wall (the source treats chunks in the same
column via the `x1 == x2` branch; an out-of-bounds `get_tile` is `None`
and counts as not-a-wall, as in the source).  The unused `current_pos`
parameter of the source is omitted. -/
def findCrossingPoints (t : TileMap) (cs : Int) (chunk1 chunk2 : Int × Int) :
    List (Int × Int) :=
  if chunk1.1 = chunk2.1 then
    let edge_x := (chunk1.1 + 1) * cs
    let y_start := max (chunk1.2 * cs) 0
    let y_end := min ((chunk1.2 + 1) * cs) t.height
    (intRange y_start y_end).filterMap (fun y =>
      if decide (t.getTile (edge_x - 1) y ≠ some TileType.WALL) &&
          decide (t.getTile edge_x y ≠ some TileType.WALL) then
        some (edge_x, y)
      else none)
  else
    let edge_y := (chunk1.2 + 1) * cs
    let x_start := max (chunk1.1 * cs) 0
    let x_end := min ((chunk1.1 + 1) * cs) t.width
    (intRange x_start x_end).filterMap (fun x =>
      if decide (t.getTile x (edge_y - 1) ≠ some TileType.WALL) &&
          decide (t.getTile x edge_y ≠ some TileType.WALL) then
        some (x, edge_y)
      else none)

/-- `min(crossing_points, key=distance-to-goal)`: leftmost minimum. -/
def bestCrossing (c : Int × Int) (rest : List (Int × Int))
    (goal : Int × Int) : Int × Int :=
  rest.foldl (fun best p =>
    if manhattan p goal < manhattan best goal then p else best) c

/-- The chunk-hop refinement loop of `find_path`: for each consecutive
abstract chunk pair, pick the best crossing point and extend the final
path with the detailed route to it (skipping the hop when there are no
crossing points or the detailed search fails). -/
def refineHops (t : TileMap) (cs : Int) (goal : Int × Int)
    (hops : List ((Int × Int) × (Int × Int)))
    (final_path : List (Int × Int)) (current_pos : Int × Int) :
    Except String (List (Int × Int) × (Int × Int)) :=
  match hops with
  | [] => Except.ok (final_path, current_pos)
  | (cc, nc) :: rest =>
    match findCrossingPoints t cs cc nc with
    | [] => refineHops t cs goal rest final_path current_pos
    | c :: cs2 =>
      let best := bestCrossing c cs2 goal
      match detailedPath t current_pos best with
      | Except.error e => Except.error e
      | Except.ok [] => refineHops t cs goal rest final_path current_pos
      | Except.ok (_ :: qs) =>
        refineHops t cs goal rest (final_path ++ qs) best

/-- `HierarchicalPathfinder.find_path` with chunk size `cs` (the
constructor default is 16): abstract route, per-hop refinement, then a
final detailed leg to the goal.  The returned list is empty exactly
when the abstract tier returns no route. -/
def findPathHier (cs : Int) (t : TileMap) (start goal : Int × Int) :
    Except String (List (Int × Int)) :=
  let astart := (start.1.fdiv cs, start.2.fdiv cs)
  let agoal := (goal.1.fdiv cs, goal.2.fdiv cs)
  let grid := createAbstractGrid t cs
  match abstractPath astart agoal grid with
  | Except.error e => Except.error e
  | Except.ok [] => Except.ok []
  | Except.ok (a :: as2) =>
    match refineHops t cs goal ((a :: as2).zip as2) [start] start with
    | Except.error e => Except.error e
    | Except.ok (fp, cur) =>
      match detailedPath t cur goal with
      | Except.error e => Except.error e
      | Except.ok [] => Except.ok fp
      | Except.ok (_ :: qs) => Except.ok (fp ++ qs)

/-- Shape well-formedness of the tile array: `height` rows of `width`
tiles, the invariant numpy guarantees for the source (Python tile arrays
are created with a fixed shape and only written by coordinate). -/
def WF (t : TileMap) : Prop :=
  t.tiles.length = t.height.toNat ∧
  ∀ row ∈ t.tiles, row.length = t.width.toNat

/-! ### Derived observations and concrete instances used by the
statements below. -/

/-- Whether an `Except` result is a success (Python: the call returned
instead of raising). -/
def exceptIsOk {a : Type} (e : Except String a) : Bool :=
  match e with
  | Except.ok _ => true
  | Except.error _ => false

/-- Number of `DOOR` tiles of a grid. -/
def doorCount (t : TileMap) : Nat :=
  (t.tiles.map (fun row =>
    (row.filter (fun c => decide (c = TileType.DOOR))).length)).sum

/-- Membership of `(px, py)` in a room rectangle enlarged by the 1-tile
padding border. -/
def inPadded (r : Room) (px py : Int) : Prop :=
  r.x - 1 ≤ px ∧ px < r.x + r.width + 1 ∧
  r.y - 1 ≤ py ∧ py < r.y + r.height + 1

/-- The two padded rectangles share no tile. -/
def paddedDisjoint (r1 r2 : Room) : Prop :=
  ∀ px py : Int, ¬ (inPadded r1 px py ∧ inPadded r2 px py)

/-- The geometric footprint of a room (everything `overlapsPadded` and
`inPadded` read); connection updates never change it. -/
structure RoomGeom where
  id : Nat
  x : Int
  y : Int
  width : Int
  height : Int
deriving DecidableEq, Repr

/-- Footprint projection. -/
def geomOf (r : Room) : RoomGeom :=
  ⟨r.id, r.x, r.y, r.width, r.height⟩

/-- Acceptance-time separation between two footprints: the negation of
the padded overlap test of `_generate_rooms`. -/
def sepG (a b : RoomGeom) : Prop :=
  b.x + b.width + 2 ≤ a.x - 2 ∨ a.x + a.width + 2 ≤ b.x - 2 ∨
  b.y + b.height + 2 ≤ a.y - 2 ∨ a.y + a.height + 2 ≤ b.y - 2

/-- Separation between rooms, via their footprints. -/
def sepR (a b : Room) : Prop :=
  sepG (geomOf a) (geomOf b)

/-- A 10-wide, 1-high grid of open floor. -/
def corridorGrid : TileMap :=
  (intRange 0 10).foldl (fun t x => t.setTile x 0 TileType.FLOOR)
    (TileMap.new 10 1)

/-- The route `find_path` produces on `corridorGrid`. -/
def corridorPathExpected : List (Int × Int) :=
  [(0, 0), (1, 0), (2, 0), (3, 0), (4, 0), (5, 0), (6, 0), (7, 0), (8, 0),
    (9, 0)]

/-- A 3-wide, 1-high grid whose middle tile is a wall: the two floor
tiles are disconnected at tile level but share one chunk. -/
def blockedGrid : TileMap :=
  (((TileMap.new 3 1).setTile 0 0 TileType.FLOOR).setTile 1 0
    TileType.WALL).setTile 2 0 TileType.FLOOR

/-- A minimal valid `room_types` section: a single 3 by 3 `corridor`
type. -/
def sampleRoomTypes : List (String × RoomTypeCfg) :=
  [("corridor", ⟨some [3, 3], some [3, 3], some 1⟩)]

/-- A minimal valid rules mapping with one `industrial` theme. -/
def sampleRules : GenRules :=
  ⟨some sampleRoomTypes, some (), some [("industrial", ⟨[("corridor", 1)]⟩)]⟩

/-- The generator built from `sampleRules`. -/
def sampleGen : Generator :=
  ⟨sampleRules, "industrial"⟩

/-- The all-zeros random oracle. -/
def zeroRng : Rng :=
  ⟨fun _ => 0, 0⟩

/-- A 12 by 12 empty grid for the door-position statements. -/
def doorGrid : TileMap :=
  TileMap.new 12 12

/-- A 3 by 3 room placed well inside `doorGrid`: its perimeter offers
door candidates. -/
def roomBig : Room :=
  ⟨0, "corridor", 2, 2, 3, 3, [], []⟩

/-- A 2 by 2 room: both perimeter ranges `range(c + 1, c + size - 1)`
are empty, so `_find_valid_door_position` finds no candidate. -/
def roomTiny : Room :=
  ⟨1, "corridor", 8, 8, 2, 2, [], []⟩

/-! ### Supporting lemmas -/

/-- The fold inside `oldestEntry` returns its seed or a list element, and
its timestamp is a lower bound for the seed and every element. -/
theorem oldestFold_spec (rest : List CacheEntry) (a : CacheEntry) :
    (rest.foldl (fun best e2 => if e2.2.2 < best.2.2 then e2 else best) a = a ∨
      rest.foldl (fun best e2 => if e2.2.2 < best.2.2 then e2 else best) a ∈ rest) ∧
    (rest.foldl (fun best e2 => if e2.2.2 < best.2.2 then e2 else best) a).2.2 ≤ a.2.2 ∧
    ∀ e ∈ rest,
      (rest.foldl (fun best e2 => if e2.2.2 < best.2.2 then e2 else best) a).2.2 ≤ e.2.2 := by
  induction rest generalizing a with
  | nil => exact ⟨Or.inl rfl, le_refl _, by intro e he; cases he⟩
  | cons x rest ih =>
    by_cases hx : x.2.2 < a.2.2
    · simp only [List.foldl_cons, if_pos hx]
      obtain ⟨hmem, hseed, hall⟩ := ih x
      refine ⟨Or.inr ?_, le_trans hseed (le_of_lt hx), ?_⟩
      · rcases hmem with h | h
        · rw [h]
          exact List.mem_cons_self x rest
        · exact List.mem_cons_of_mem _ h
      · intro e he
        rcases List.mem_cons.mp he with rfl | he2
        · exact hseed
        · exact hall e he2
    · simp only [List.foldl_cons, if_neg hx]
      obtain ⟨hmem, hseed, hall⟩ := ih a
      refine ⟨?_, hseed, ?_⟩
      · rcases hmem with h | h
        · exact Or.inl h
        · exact Or.inr (List.mem_cons_of_mem _ h)
      · intro e he
        rcases List.mem_cons.mp he with rfl | he2
        · exact le_trans hseed (le_of_not_lt hx)
        · exact hall e he2

/-- `oldestEntry` returns a member of minimal timestamp. -/
theorem oldestEntry_spec (entries : List CacheEntry) (ev : CacheEntry)
    (h : oldestEntry entries = some ev) :
    ev ∈ entries ∧ ∀ e ∈ entries, ev.2.2 ≤ e.2.2 := by
  match entries with
  | [] => simp [oldestEntry] at h
  | a :: rest =>
    simp only [oldestEntry, Option.some.injEq] at h
    obtain ⟨hmem, hseed, hall⟩ := oldestFold_spec rest a
    rw [h] at hmem hseed hall
    constructor
    · rcases hmem with h2 | h2
      · rw [h2]
        exact List.mem_cons_self a rest
      · exact List.mem_cons_of_mem _ h2
    · intro e he
      rcases List.mem_cons.mp he with rfl | he2
      · exact hseed
      · exact hall e he2

/-! ### Claims about the sector cache -/

/-- Claim C5 counterexample: a cache state filled to its capacity for which
`put` with a new key neither evicts one entry nor inserts the new one: with
capacity 0 the empty cache is at capacity, and `put` raises (CPython `min`
of an empty sequence) instead of evicting and inserting. -/
theorem put_at_zero_capacity_raises :
    SectorCache.put ⟨[], 0, 300⟩ 0 0 "industrial" (TileMap.new 1 1) 0 =
      Except.error "min arg is an empty sequence" := by
  rfl

/-- Claim C5 (amended): for every cache with positive capacity filled
exactly to its capacity, `put` with a new key evicts exactly one entry of
minimal insertion timestamp (independent of any `get` history, which never
touches timestamps) and then appends the new entry, leaving the cache at
capacity. -/
theorem put_full_cache_evicts_oldest_then_inserts
    (c : SectorCache) (x y : Int) (th : String) (tm : TileMap) (now : Rat)
    (ev : CacheEntry)
    (hpos : 0 < c.maxSize)
    (hfull : c.cache.length = c.maxSize)
    (hnew : ∀ e ∈ c.cache, e.1 ≠ (x, y, th))
    (hev : oldestEntry c.cache = some ev) :
    ev ∈ c.cache ∧
      (∀ e ∈ c.cache, ev.2.2 ≤ e.2.2) ∧
      SectorCache.put c x y th tm now =
        Except.ok { c with
          cache := c.cache.eraseP (fun e => decide (e.1 = ev.1)) ++
            [((x, y, th), tm, now)] } ∧
      (c.cache.eraseP (fun e => decide (e.1 = ev.1)) ++
          [((x, y, th), tm, now)]).length = c.maxSize := by
  obtain ⟨cl, cmax, cttl⟩ := c
  simp only at hpos hfull hnew hev
  obtain ⟨a, rest, rfl⟩ : ∃ a rest, cl = a :: rest := by
    cases cl with
    | nil => simp at hfull; omega
    | cons a rest => exact ⟨a, rest, rfl⟩
  obtain ⟨hmem, hmin⟩ := oldestEntry_spec _ _ hev
  refine ⟨hmem, hmin, ?_, ?_⟩
  · have hcap : cmax ≤ (a :: rest).length := le_of_eq hfull.symm
    have hanyfalse :
        ((a :: rest).eraseP (fun e => decide (e.1 = ev.1))).any
          (fun e => decide (e.1 = (x, y, th))) = false := by
      rw [List.any_eq_false]
      intro e he
      have hmem2 : e ∈ a :: rest := List.eraseP_subset _ he
      simpa using hnew e hmem2
    simp only [SectorCache.put, if_pos hcap, hev, hanyfalse, Bool.false_eq_true,
      if_false]
  · have hlen := List.length_eraseP_of_mem (p := fun e => decide (e.1 = ev.1))
      hmem (by simp)
    rw [List.length_append, hlen]
    simp only [List.length_cons, List.length_nil]
    simp only [List.length_cons] at hfull
    omega

/-- Claim C6: a cached entry older than the time-to-live is discarded by
`get` (returning `none` and shrinking the cache by one); an entry whose
age is still within the time-to-live is returned with the cache
unchanged. -/
theorem get_respects_ttl
    (c : SectorCache) (x y : Int) (th : String) (tm : TileMap)
    (ts now : Rat)
    (hfind : c.cache.find? (fun e => decide (e.1 = (x, y, th))) =
      some ((x, y, th), tm, ts)) :
    (c.ttl < now - ts →
      SectorCache.get c x y th now =
        (none, { c with
          cache := c.cache.eraseP (fun e => decide (e.1 = (x, y, th))) }) ∧
      (SectorCache.get c x y th now).2.size = c.size - 1) ∧
    (now - ts ≤ c.ttl →
      SectorCache.get c x y th now = (some tm, c)) := by
  have hmem : (((x, y, th), tm, ts) : CacheEntry) ∈ c.cache :=
    List.mem_of_find?_eq_some hfind
  constructor
  · intro hexp
    have hnotle : ¬ now - ts ≤ c.ttl := not_le.mpr hexp
    constructor
    · simp only [SectorCache.get, hfind, hnotle, if_false]
    · simp only [SectorCache.get, hfind, hnotle, if_false, SectorCache.size]
      exact List.length_eraseP_of_mem (p := fun e => decide (e.1 = (x, y, th)))
        hmem (by simp)
  · intro hfresh
    simp only [SectorCache.get, hfind, hfresh, if_true]

/-- Claim C5 witness: the amended eviction theorem applied to a concrete
two-entry cache at capacity 2. -/
theorem put_full_cache_evicts_oldest_then_inserts_witness :
    SectorCache.put cacheSampleFull 2 0 "a" tmSample 9 =
      Except.ok { cache := [((0, 0, "a"), tmSample, 5), ((2, 0, "a"), tmSample, 9)]
                  maxSize := 2
                  ttl := 300 } :=
  (put_full_cache_evicts_oldest_then_inserts cacheSampleFull 2 0 "a" tmSample 9
    ((1, 0, "a"), tmSample, 3) (by decide) (by rfl) (by decide) (by rfl)).2.2.1

/-- Claim C6 witness: the time-to-live theorem applied to a concrete
one-entry cache, in both the expired and the fresh direction. -/
theorem get_respects_ttl_witness :
    (SectorCache.get cacheSampleOne 0 0 "t" 301 =
      (none, { cacheSampleOne with
        cache := cacheSampleOne.cache.eraseP
          (fun e => decide (e.1 = (0, 0, "t"))) }) ∧
      (SectorCache.get cacheSampleOne 0 0 "t" 301).2.size =
        cacheSampleOne.size - 1) ∧
    SectorCache.get cacheSampleOne 0 0 "t" 200 =
      (some tmSample, cacheSampleOne) :=
  ⟨(get_respects_ttl cacheSampleOne 0 0 "t" tmSample 0 301 (by rfl)).1
      (by norm_num [cacheSampleOne]),
    (get_respects_ttl cacheSampleOne 0 0 "t" tmSample 0 200 (by rfl)).2
      (by norm_num [cacheSampleOne])⟩

/-! ### Claims about rule validation (C7) -/

/-- `validateRoomType` succeeds exactly on well-formed bounds. -/
theorem validateRoomType_ok_iff (n : String) (cfg : RoomTypeCfg) :
    validateRoomType n cfg = Except.ok () ↔
      ∃ ms xs dw, cfg.min_size = some ms ∧ cfg.max_size = some xs ∧
        cfg.min_door_width = some dw ∧ ms.length = 2 ∧ xs.length = 2 ∧
        ms.getD 0 0 ≤ xs.getD 0 0 ∧ ms.getD 1 0 ≤ xs.getD 1 0 := by
  obtain ⟨oms, oxs, odw⟩ := cfg
  cases oms with
  | none => simp [validateRoomType]
  | some ms =>
    cases oxs with
    | none => simp [validateRoomType]
    | some xs =>
      cases odw with
      | none => simp [validateRoomType]
      | some dw =>
        have heval : validateRoomType n ⟨some ms, some xs, some dw⟩ =
            (if ms.length ≠ 2 ∨ xs.length ≠ 2 then
              Except.error ("Invalid size dimensions for room type " ++ n)
            else if ms.getD 0 0 > xs.getD 0 0 ∨ ms.getD 1 0 > xs.getD 1 0 then
              Except.error ("Min size larger than max size for room type " ++ n)
            else Except.ok ()) := rfl
        rw [heval]
        by_cases h1 : ms.length = 2 ∧ xs.length = 2
        · rw [if_neg (by simp [h1.1, h1.2])]
          by_cases h2 : ms.getD 0 0 > xs.getD 0 0 ∨ ms.getD 1 0 > xs.getD 1 0
          · rw [if_pos h2]
            constructor
            · intro h
              exact Except.noConfusion h
            · rintro ⟨ms2, xs2, dw2, hm, hx, hd, h4, h5, h6, h7⟩
              simp only [Option.some.injEq] at hm hx
              subst hm
              subst hx
              rcases h2 with h | h
              · exact absurd h6 (not_le.mpr h)
              · exact absurd h7 (not_le.mpr h)
          · rw [if_neg h2]
            push_neg at h2
            constructor
            · intro _
              exact ⟨ms, xs, dw, rfl, rfl, rfl, h1.1, h1.2, h2.1, h2.2⟩
            · intro _
              rfl
        · rw [if_pos (not_and_or.mp h1)]
          constructor
          · intro h
            exact Except.noConfusion h
          · rintro ⟨ms2, xs2, dw2, hm, hx, hd, h4, h5, h6, h7⟩
            simp only [Option.some.injEq] at hm hx
            subst hm
            subst hx
            exact absurd ⟨h4, h5⟩ h1

/-- `validateRoomTypes` succeeds exactly when each entry does. -/
theorem validateRoomTypes_ok_iff (l : List (String × RoomTypeCfg)) :
    validateRoomTypes l = Except.ok () ↔
      ∀ p ∈ l, validateRoomType p.1 p.2 = Except.ok () := by
  induction l with
  | nil => simp [validateRoomTypes]
  | cons p rest ih =>
    obtain ⟨n, cfg⟩ := p
    constructor
    · intro h
      cases hh : validateRoomType n cfg with
      | error e =>
        simp only [validateRoomTypes, hh] at h
        exact Except.noConfusion h
      | ok u =>
        cases u
        simp only [validateRoomTypes, hh] at h
        intro q hq
        rcases List.mem_cons.mp hq with rfl | hq2
        · exact hh
        · exact (ih.mp h) q hq2
    · intro h
      have h1 : validateRoomType n cfg = Except.ok () :=
        h (n, cfg) (List.mem_cons_self _ _)
      simp only [validateRoomTypes, h1]
      exact ih.mpr (fun q hq => h q (List.mem_cons_of_mem _ hq))

/-- Claim C7 counterexample: a rules mapping with no `themes` section at
all (but with `room_types` and `connection_rules` present) constructs a
generator successfully, although the claim says a missing `themes` section
must make construction fail hard. -/
theorem mkGenerator_ok_without_themes :
    mkGenerator ⟨some [], some (), none⟩ =
      Except.ok { rules := ⟨some [], some (), none⟩, current_theme := "industrial" } := by
  rfl

/-- Claim C7 (amended): construction validates the rules and fails hard
exactly unless both `room_types` and `connection_rules` sections are
present (a missing `themes` section is tolerated) and every room type has
the three required fields, with two-element `min_size`/`max_size` and
`min_size` componentwise at most `max_size`. -/
theorem mkGenerator_ok_iff (r : GenRules) :
    (∃ g, mkGenerator r = Except.ok g) ↔
      ∃ rts, r.room_types = some rts ∧ r.connection_rules ≠ none ∧
        ∀ p ∈ rts, ∃ ms xs dw, p.2.min_size = some ms ∧
          p.2.max_size = some xs ∧ p.2.min_door_width = some dw ∧
          ms.length = 2 ∧ xs.length = 2 ∧
          ms.getD 0 0 ≤ xs.getD 0 0 ∧ ms.getD 1 0 ≤ xs.getD 1 0 := by
  obtain ⟨orts, ocr, oth⟩ := r
  cases orts with
  | none => simp [mkGenerator, validateRules]
  | some rts =>
    cases ocr with
    | none => simp [mkGenerator, validateRules]
    | some u =>
      cases u
      have hstep : (∃ g, mkGenerator ⟨some rts, some (), oth⟩ = Except.ok g) ↔
          validateRoomTypes rts = Except.ok () := by
        cases hv : validateRoomTypes rts with
        | error e => simp [mkGenerator, validateRules, hv]
        | ok u => cases u; simp [mkGenerator, validateRules, hv]
      rw [hstep, validateRoomTypes_ok_iff]
      constructor
      · intro h
        exact ⟨rts, rfl, by simp, fun p hp => (validateRoomType_ok_iff p.1 p.2).mp (h p hp)⟩
      · rintro ⟨rts2, h1, h2, h3⟩
        simp only [Option.some.injEq] at h1
        subst h1
        exact fun p hp => (validateRoomType_ok_iff p.1 p.2).mpr (h3 p hp)

/-! ### Claims C1, C4, C8 and the C3 counterexample -/

/-- Claim C1 counterexample: calling `generate_sector` with a theme that
is absent from the loaded configuration does not fail; the generator
falls back and returns a grid. -/
theorem generateSector_unknown_theme_succeeds :
    themeConfigOf sampleGen.rules (some "nope") = none ∧
    exceptIsOk (generateSector sampleGen 9 9 (some "nope") (some 1) (some 1)
      none zeroRng) = true :=
  ⟨rfl, rfl⟩

/-- Claim C1 (amended): on a successfully constructed generator,
`generate_sector` raises exactly when the width or the height is
non-positive; an absent theme never makes the call fail. -/
theorem generateSector_error_iff_bad_dims
    (rules : GenRules) (gen : Generator) (w h : Int) (theme : Option String)
    (mr xr : Option Int) (cr : Option Rat) (rng : Rng)
    (_hg : mkGenerator rules = Except.ok gen) :
    (w ≤ 0 ∨ h ≤ 0 →
      generateSector gen w h theme mr xr cr rng =
        Except.error "Invalid sector dimensions") ∧
    (0 < w → 0 < h →
      exceptIsOk (generateSector gen w h theme mr xr cr rng) = true) := by
  constructor
  · intro hbad
    simp only [generateSector, if_pos hbad]
  · intro hw hh
    have hcond : ¬ (w ≤ 0 ∨ h ≤ 0) := by omega
    simp only [generateSector, if_neg hcond]
    cases cr with
    | none => rfl
    | some c =>
      by_cases hl :
          (effectiveThemeConfig gen.rules theme).room_weights.length = 1
      · simp only [if_pos hl]
        rfl
      · simp only [if_neg hl]
        rfl

/-- Claim C1 witness: the amended theorem at concrete inputs, in both
directions. -/
theorem generateSector_error_iff_bad_dims_witness :
    generateSector sampleGen 0 9 (some "industrial") none none none zeroRng =
      Except.error "Invalid sector dimensions" ∧
    exceptIsOk (generateSector sampleGen 9 9 (some "industrial") none none
      none zeroRng) = true :=
  ⟨(generateSector_error_iff_bad_dims sampleRules sampleGen 0 9
      (some "industrial") none none none zeroRng (by rfl)).1 (by decide),
    (generateSector_error_iff_bad_dims sampleRules sampleGen 9 9
      (some "industrial") none none none zeroRng (by rfl)).2 (by decide)
      (by decide)⟩

set_option maxRecDepth 400000 in
/-- Claim C8: a failing input for the door-validity property.  The run
`generate_sector(9, 9, "industrial", min_rooms=1, max_rooms=1)` under
the all-zeros oracle places exactly one room and stamps no door tile at
all (single-room sectors skip both the MST and the entrance/exit
phases), contradicting the claim and the repository's own
`test_door_placement`. -/
theorem single_room_sector_has_no_door :
    (generateSector sampleGen 9 9 (some "industrial") (some 1) (some 1) none
        zeroRng).toOption.map
      (fun p => (p.1.rooms.length, doorCount p.1)) = some (1, 0) := by
  with_unfolding_all rfl

/-- Claim C4: on the straight open 10 by 1 corridor, `find_path` from
`(0, 0)` to `(9, 0)` returns exactly the ten corridor tiles in order;
consecutive coordinates differ by at most one tile per axis. -/
theorem findPath_corridor_ten_tiles :
    findPathHier 16 corridorGrid (0, 0) (9, 0) =
      Except.ok corridorPathExpected ∧
    corridorPathExpected.length = 10 ∧
    corridorPathExpected.head? = some (0, 0) ∧
    corridorPathExpected.getLast? = some (9, 0) ∧
    (corridorPathExpected.zip corridorPathExpected.tail).all
      (fun pq => decide ((pq.1.1 - pq.2.1).natAbs ≤ 1) &&
        decide ((pq.1.2 - pq.2.2).natAbs ≤ 1)) = true :=
  ⟨by with_unfolding_all rfl, by decide, by decide, by decide, by decide⟩

/-- Claim C3 counterexample: on `blockedGrid` the detailed tier fails
(`_detailed_path` returns the empty route) yet `find_path` returns the
nonempty `[(0, 0)]` instead of an empty sequence: both endpoints share
one chunk, so the abstract tier trivially succeeds and the failed final
detailed leg is silently dropped. -/
theorem findPath_nonempty_on_detailed_failure :
    detailedPath blockedGrid (0, 0) (2, 0) = Except.ok [] ∧
    findPathHier 16 blockedGrid (0, 0) (2, 0) = Except.ok [(0, 0)] :=
  ⟨by rfl, by rfl⟩

/-! ### Claim C9: soft degeneracies -/

/-- Claim C9: with positive dimensions `generate_sector` never raises,
and each soft degeneracy has its documented fallback: an unknown theme
uses the default corridor-only weight distribution, an empty room list
makes `_connect_rooms` return the grid untouched, and when the MST scan
finds no usable edge the loop runs the door-only fallback (no corridor)
for the remaining rooms and stops. -/
theorem generateSector_soft_degeneracies
    (gen : Generator) (w h : Int) (theme : Option String)
    (mr xr : Option Int) (cr : Option Rat) (rng : Rng)
    (hw : 0 < w) (hh : 0 < h) :
    exceptIsOk (generateSector gen w h theme mr xr cr rng) = true ∧
    (themeConfigOf gen.rules theme = none →
      effectiveThemeConfig gen.rules theme = ⟨[("corridor", 1)]⟩) ∧
    (∀ t rng0, connectRooms gen.rules t [] rng0 = (t, rng0)) ∧
    (∀ t edges rooms fuel connected remaining rng0 t1 rng1,
      scanEdges gen.rules t edges connected rng0 = (none, t1, rng1) →
      remaining ≠ [] →
      mstLoop gen.rules t edges rooms (fuel + 1) connected remaining rng0 =
        fallbackDoors gen.rules t1 rooms remaining rng1) := by
  refine ⟨?_, ?_, ?_, ?_⟩
  · have hcond : ¬ (w ≤ 0 ∨ h ≤ 0) := by omega
    simp only [generateSector, if_neg hcond]
    cases cr with
    | none => rfl
    | some c =>
      by_cases hl :
          (effectiveThemeConfig gen.rules theme).room_weights.length = 1
      · simp only [if_pos hl]
        rfl
      · simp only [if_neg hl]
        rfl
  · intro hnone
    simp [effectiveThemeConfig, hnone]
  · intro t rng0
    rfl
  · intro t edges rooms fuel connected remaining rng0 t1 rng1 hscan hne
    cases remaining with
    | nil => exact absurd rfl hne
    | cons a rem =>
      simp only [mstLoop, hscan]

/-- Claim C9 witness: the degeneracy theorem at concrete inputs (unknown
theme, empty room list, empty edge list). -/
theorem generateSector_soft_degeneracies_witness :
    exceptIsOk (generateSector sampleGen 9 9 (some "nope") (some 1) (some 1)
      none zeroRng) = true ∧
    effectiveThemeConfig sampleGen.rules (some "nope") =
      ⟨[("corridor", 1)]⟩ ∧
    connectRooms sampleGen.rules doorGrid [] zeroRng = (doorGrid, zeroRng) ∧
    mstLoop sampleGen.rules doorGrid [] [roomBig] 1 [] [1] zeroRng =
      fallbackDoors sampleGen.rules doorGrid [roomBig] [1] zeroRng := by
  have h := generateSector_soft_degeneracies sampleGen 9 9 (some "nope")
    (some 1) (some 1) none zeroRng (by decide) (by decide)
  exact ⟨h.1, h.2.1 (by rfl), h.2.2.1 doorGrid zeroRng,
    h.2.2.2 doorGrid [] [roomBig] 0 [] [1] zeroRng doorGrid zeroRng (by rfl)
      (by decide)⟩

/-! ### Tile-level lemmas -/

/-- `set_tile` never changes the grid dimensions or the room catalog. -/
theorem setTile_fields (t : TileMap) (x y : Int) (v : TileType) :
    (t.setTile x y v).width = t.width ∧ (t.setTile x y v).height = t.height ∧
    (t.setTile x y v).rooms = t.rooms := by
  unfold TileMap.setTile
  split <;> exact ⟨rfl, rfl, rfl⟩

/-- Unfolding of the bounds check. -/
theorem isValidPosition_iff (t : TileMap) (x y : Int) :
    t.isValidPosition x y = true ↔
      0 ≤ x ∧ x < t.width ∧ 0 ≤ y ∧ y < t.height := by
  simp [TileMap.isValidPosition, and_assoc]

/-- A successful `get_tile` read means the position is in bounds. -/
theorem getTile_some_valid (t : TileMap) (x y : Int) (v : TileType)
    (h : t.getTile x y = some v) : t.isValidPosition x y = true := by
  by_cases hv : t.isValidPosition x y = true
  · exact hv
  · unfold TileMap.getTile at h
    rw [if_neg hv] at h
    exact Option.noConfusion h

/-- A fresh grid is well-formed. -/
theorem WF_new (w h : Int) : WF (TileMap.new w h) := by
  constructor
  · simp [TileMap.new]
  · intro row hrow
    rw [List.eq_of_mem_replicate hrow]
    simp [TileMap.new]

/-- The written tile array of an in-bounds `set_tile`. -/
theorem setTile_tiles_pos (t : TileMap) (x y : Int) (v : TileType)
    (hv : t.isValidPosition x y = true) :
    (t.setTile x y v).tiles =
      t.tiles.set y.toNat ((t.tiles.getD y.toNat []).set x.toNat v) := by
  unfold TileMap.setTile
  rw [if_pos hv]

/-- An out-of-bounds `set_tile` is the identity. -/
theorem setTile_oob (t : TileMap) (x y : Int) (v : TileType)
    (hv : ¬ t.isValidPosition x y = true) :
    t.setTile x y v = t := by
  unfold TileMap.setTile
  rw [if_neg hv]

/-- `set_tile` does not change which positions are in bounds. -/
theorem setTile_valid_same (t : TileMap) (x y : Int) (v : TileType)
    (x2 y2 : Int) :
    (t.setTile x y v).isValidPosition x2 y2 = t.isValidPosition x2 y2 := by
  unfold TileMap.isValidPosition
  rw [(setTile_fields t x y v).1, (setTile_fields t x y v).2.1]

/-- `set_tile` preserves well-formedness. -/
theorem WF_setTile (t : TileMap) (x y : Int) (v : TileType) (h : WF t) :
    WF (t.setTile x y v) := by
  by_cases hv : t.isValidPosition x y = true
  · have hfields := setTile_fields t x y v
    constructor
    · rw [setTile_tiles_pos t x y v hv, List.length_set, hfields.2.1, h.1]
    · intro row hrow
      rw [setTile_tiles_pos t x y v hv] at hrow
      rw [hfields.1]
      rcases List.mem_or_eq_of_mem_set hrow with h2 | h2
      · exact h.2 row h2
      · rw [h2]
        rw [isValidPosition_iff] at hv
        have hy : y.toNat < t.tiles.length := by
          rw [h.1]
          omega
        rw [List.length_set, List.getD_eq_getElem?_getD,
          List.getElem?_eq_getElem hy]
        exact h.2 _ (List.getElem_mem hy)
  · rw [setTile_oob t x y v hv]
    exact h

/-- Reading back the tile just written. -/
theorem getTile_setTile_self (t : TileMap) (x y : Int) (v : TileType)
    (hv : t.isValidPosition x y = true) (hwf : WF t) :
    (t.setTile x y v).getTile x y = some v := by
  have hv2 := (isValidPosition_iff t x y).mp hv
  have hy : y.toNat < t.tiles.length := by
    rw [hwf.1]
    omega
  have hx : x.toNat < (t.tiles[y.toNat]?.getD []).length := by
    simp only [List.getElem?_eq_getElem hy, Option.getD_some]
    rw [hwf.2 _ (List.getElem_mem hy)]
    omega
  have hval2 : (t.setTile x y v).isValidPosition x y = true := by
    rw [setTile_valid_same]
    exact hv
  unfold TileMap.getTile
  rw [if_pos hval2, setTile_tiles_pos t x y v hv]
  simp only [List.getD_eq_getElem?_getD, List.getElem?_set_self hy,
    Option.getD_some, List.getElem?_set_self hx]

/-- Writing one tile never changes any other tile. -/
theorem getTile_setTile_ne (t : TileMap) (x y : Int) (v : TileType)
    (x2 y2 : Int) (hne : ¬ (x2 = x ∧ y2 = y)) :
    (t.setTile x y v).getTile x2 y2 = t.getTile x2 y2 := by
  by_cases hv : t.isValidPosition x y = true
  · unfold TileMap.getTile
    rw [setTile_valid_same, setTile_tiles_pos t x y v hv]
    by_cases hv2 : t.isValidPosition x2 y2 = true
    · rw [if_pos hv2, if_pos hv2]
      rw [isValidPosition_iff] at hv hv2
      by_cases hyy : y2 = y
      · have hxx : ¬ x2 = x := fun hc => hne ⟨hc, hyy⟩
        have hxne : x.toNat ≠ x2.toNat := by
          intro hc
          apply hxx
          omega
        subst hyy
        simp only [List.getD_eq_getElem?_getD]
        by_cases hy : y2.toNat < t.tiles.length
        · rw [List.getElem?_set_self hy, Option.getD_some,
            List.getElem?_set_ne hxne]
        · rw [List.set_eq_of_length_le (by omega)]
      · have hyne : y.toNat ≠ y2.toNat := by
          intro hc
          apply hyy
          omega
        simp only [List.getD_eq_getElem?_getD]
        rw [List.getElem?_set_ne hyne]
    · rw [if_neg hv2, if_neg hv2]
  · rw [setTile_oob t x y v hv]

/-- One neighbour step touches only its own cell. -/
theorem doorFloorStep_getTile_ne (pos : Int × Int) (tt : TileMap)
    (d : Int × Int) (cx cy : Int)
    (hne : ¬ (cx = pos.1 + d.1 ∧ cy = pos.2 + d.2)) :
    (doorFloorStep pos tt d).getTile cx cy = tt.getTile cx cy := by
  unfold doorFloorStep
  split
  · exact getTile_setTile_ne _ _ _ _ _ _ hne
  · exact getTile_setTile_ne _ _ _ _ _ _ hne
  · rfl

/-- One neighbour step preserves well-formedness. -/
theorem doorFloorStep_WF (pos : Int × Int) (tt : TileMap) (d : Int × Int)
    (h : WF tt) : WF (doorFloorStep pos tt d) := by
  unfold doorFloorStep
  split
  · exact WF_setTile _ _ _ _ h
  · exact WF_setTile _ _ _ _ h
  · exact h

/-- The neighbour loop leaves untouched every cell that is not one of
its neighbour cells. -/
theorem doorFold_getTile_untouched (pos : Int × Int)
    (ds : List (Int × Int)) (t0 : TileMap) (cx cy : Int)
    (h : ∀ d ∈ ds, ¬ (cx = pos.1 + d.1 ∧ cy = pos.2 + d.2)) :
    (ds.foldl (doorFloorStep pos) t0).getTile cx cy = t0.getTile cx cy := by
  induction ds generalizing t0 with
  | nil => rfl
  | cons e rest ih =>
    rw [List.foldl_cons, ih _ (fun d hd => h d (List.mem_cons_of_mem _ hd))]
    exact doorFloorStep_getTile_ne pos t0 e cx cy (h e (List.mem_cons_self _ _))

/-- The neighbour loop floors a neighbour cell that currently holds
empty or wall. -/
theorem doorFold_converts (pos d : Int × Int) (tile : TileType)
    (htile : tile = TileType.EMPTY ∨ tile = TileType.WALL) :
    ∀ (ds : List (Int × Int)) (t0 : TileMap), d ∈ ds → ds.Nodup → WF t0 →
      t0.getTile (pos.1 + d.1) (pos.2 + d.2) = some tile →
      (ds.foldl (doorFloorStep pos) t0).getTile (pos.1 + d.1) (pos.2 + d.2) =
        some TileType.FLOOR := by
  intro ds
  induction ds with
  | nil =>
    intro t0 hmem _ _ _
    cases hmem
  | cons e rest ih =>
    intro t0 hmem hnd hwf hget
    rw [List.foldl_cons]
    rcases List.mem_cons.mp hmem with rfl | hd
    · have hvalid := getTile_some_valid _ _ _ _ hget
      have hstep : (doorFloorStep pos t0 d).getTile (pos.1 + d.1)
          (pos.2 + d.2) = some TileType.FLOOR := by
        unfold doorFloorStep
        rcases htile with rfl | rfl
        · rw [hget]
          exact getTile_setTile_self _ _ _ _ hvalid hwf
        · rw [hget]
          exact getTile_setTile_self _ _ _ _ hvalid hwf
      rw [doorFold_getTile_untouched pos rest _ _ _ ?_]
      · exact hstep
      · intro d2 hd2 hc
        have hdne : d2 ≠ d := fun hc2 => (List.nodup_cons.mp hnd).1 (hc2 ▸ hd2)
        apply hdne
        obtain ⟨h1, h2⟩ := hc
        have e1 : d2.1 = d.1 := by omega
        have e2 : d2.2 = d.2 := by omega
        exact Prod.ext e1 e2
    · have hene : ¬ (pos.1 + d.1 = pos.1 + e.1 ∧ pos.2 + d.2 = pos.2 + e.2) := by
        intro hc
        have hdne : d ≠ e := by
          intro hc2
          exact (List.nodup_cons.mp hnd).1 (hc2 ▸ hd)
        apply hdne
        obtain ⟨h1, h2⟩ := hc
        have e1 : d.1 = e.1 := by omega
        have e2 : d.2 = e.2 := by omega
        exact Prod.ext e1 e2
    
      exact ih (doorFloorStep pos t0 e) hd (List.nodup_cons.mp hnd).2
        (doorFloorStep_WF pos t0 e hwf)
        ((doorFloorStep_getTile_ne pos t0 e _ _ hene).trans hget)

/-! ### Door-position lemmas and claim C10 -/

/-- `getD` with the head as default picks a member. -/
theorem getD_mem_cons {a : Type} (x : a) (xs : List a) (i : Nat) :
    (x :: xs).getD i x ∈ x :: xs := by
  by_cases h : i < (x :: xs).length
  · rw [List.getD_eq_getElem?_getD, List.getElem?_eq_getElem h,
      Option.getD_some]
    exact List.getElem_mem h
  · rw [List.getD_eq_getElem?_getD, List.getElem?_eq_none (by omega),
      Option.getD_none]
    exact List.mem_cons_self x xs

/-- `random.choice` picks a member. -/
theorem choiceNE_mem {a : Type} (x : a) (xs : List a) (r : Rng) :
    (choiceNE x xs r).1 ∈ x :: xs := by
  unfold choiceNE
  exact getD_mem_cons x xs _

/-- Every door candidate is in bounds. -/
theorem doorCandidatePositions_valid (t : TileMap) (room : Room)
    (q : Int × Int) (h : q ∈ doorCandidatePositions t room) :
    t.isValidPosition q.1 q.2 = true := by
  unfold doorCandidatePositions at h
  simp only [List.mem_append, List.mem_map, List.mem_filter] at h
  rcases h with ((⟨x, ⟨_, hval⟩, rfl⟩ | ⟨x, ⟨_, hval⟩, rfl⟩) |
      ⟨y, ⟨_, hval⟩, rfl⟩) | ⟨y, ⟨_, hval⟩, rfl⟩ <;> exact hval

/-- The neighbour loop preserves well-formedness. -/
theorem doorFold_WF (pos : Int × Int) :
    ∀ (ds : List (Int × Int)) (t0 : TileMap), WF t0 →
      WF (ds.foldl (doorFloorStep pos) t0) := by
  intro ds
  induction ds with
  | nil =>
    intro t0 h
    exact h
  | cons e rest ih =>
    intro t0 h
    rw [List.foldl_cons]
    exact ih _ (doorFloorStep_WF pos t0 e h)

/-- The neighbour loop never erases a door. -/
theorem doorFold_preserves_door (pos : Int × Int) :
    ∀ (ds : List (Int × Int)) (t0 : TileMap) (cx cy : Int),
      t0.getTile cx cy = some TileType.DOOR →
      (ds.foldl (doorFloorStep pos) t0).getTile cx cy =
        some TileType.DOOR := by
  intro ds
  induction ds with
  | nil =>
    intro t0 cx cy h
    exact h
  | cons e rest ih =>
    intro t0 cx cy h
    rw [List.foldl_cons]
    apply ih
    by_cases hc : cx = pos.1 + e.1 ∧ cy = pos.2 + e.2
    · unfold doorFloorStep
      obtain ⟨h1, h2⟩ := hc
      rw [← h1, ← h2, h]
      exact h
    · rw [doorFloorStep_getTile_ne pos t0 e cx cy hc]
      exact h

/-- Claim C10, first half: a successful `_find_valid_door_position`
stamps a door at the chosen position and floors every adjacent tile that
held empty or wall. -/
theorem findValidDoorPosition_spec (rules : GenRules) (t : TileMap)
    (room : Room) (rng : Rng) (pos : Int × Int) (t2 : TileMap) (rng2 : Rng)
    (hwf : WF t)
    (h : findValidDoorPosition rules t room rng = (some pos, t2, rng2)) :
    t2.getTile pos.1 pos.2 = some TileType.DOOR ∧
    ∀ d ∈ doorNeighbourDeltas, ∀ tile,
      t.getTile (pos.1 + d.1) (pos.2 + d.2) = some tile →
      (tile = TileType.EMPTY ∨ tile = TileType.WALL) →
      t2.getTile (pos.1 + d.1) (pos.2 + d.2) = some TileType.FLOOR := by
  unfold findValidDoorPosition at h
  cases h1 : rules.room_types with
  | none =>
    rw [h1] at h
    simp only [Prod.mk.injEq] at h
    exact Option.noConfusion h.1
  | some rts =>
    rw [h1] at h
    cases h2 : doorCandidatePositions t room with
    | nil =>
      rw [h2] at h
      simp only [Prod.mk.injEq] at h
      exact Option.noConfusion h.1
    | cons p rest =>
      rw [h2] at h
      simp only [Prod.mk.injEq, Option.some.injEq] at h
      obtain ⟨hpos, ht2, _⟩ := h
      rw [hpos] at ht2
      have hmem : pos ∈ doorCandidatePositions t room := by
        rw [h2, ← hpos]
        exact choiceNE_mem p rest rng
      have hvalid := doorCandidatePositions_valid t room pos hmem
      have hnz : ∀ d ∈ doorNeighbourDeltas, ¬ (d = ((0 : Int), (0 : Int))) := by
        decide
      constructor
      · rw [← ht2]
        rw [doorFold_getTile_untouched pos doorNeighbourDeltas _ _ _ ?_]
        · exact getTile_setTile_self t pos.1 pos.2 TileType.DOOR hvalid hwf
        · intro d hd hc
          apply hnz d hd
          obtain ⟨c1, c2⟩ := hc
          have e1 : d.1 = 0 := by omega
          have e2 : d.2 = 0 := by omega
          exact Prod.ext e1 e2
      · intro d hd tile hget htile
        rw [← ht2]
        have hcellne : ¬ (pos.1 + d.1 = pos.1 ∧ pos.2 + d.2 = pos.2) := by
          intro hc
          apply hnz d hd
          obtain ⟨c1, c2⟩ := hc
          have e1 : d.1 = 0 := by omega
          have e2 : d.2 = 0 := by omega
          exact Prod.ext e1 e2
        have hget1 : (t.setTile pos.1 pos.2 TileType.DOOR).getTile
            (pos.1 + d.1) (pos.2 + d.2) = some tile := by
          rw [getTile_setTile_ne _ _ _ _ _ _ hcellne]
          exact hget
        exact doorFold_converts pos d tile htile doorNeighbourDeltas _ hd
          (by decide) (WF_setTile t pos.1 pos.2 TileType.DOOR hwf) hget1

/-- A failed door search does not mutate the grid. -/
theorem findValidDoorPosition_none (rules : GenRules) (t : TileMap)
    (room : Room) (rng : Rng) (t2 : TileMap) (rng2 : Rng)
    (h : findValidDoorPosition rules t room rng = (none, t2, rng2)) :
    t2 = t := by
  unfold findValidDoorPosition at h
  cases h1 : rules.room_types with
  | none =>
    rw [h1] at h
    simp only [Prod.mk.injEq] at h
    exact h.2.1.symm
  | some rts =>
    rw [h1] at h
    cases h2 : doorCandidatePositions t room with
    | nil =>
      rw [h2] at h
      simp only [Prod.mk.injEq] at h
      exact h.2.1.symm
    | cons p rest =>
      rw [h2] at h
      simp only [Prod.mk.injEq] at h
      exact Option.noConfusion h.1

/-- The grid returned by a door search is well-formed. -/
theorem findValidDoorPosition_WF (rules : GenRules) (t : TileMap)
    (room : Room) (rng : Rng) (hwf : WF t) :
    WF (findValidDoorPosition rules t room rng).2.1 := by
  unfold findValidDoorPosition
  cases h1 : rules.room_types with
  | none => exact hwf
  | some rts =>
    cases h2 : doorCandidatePositions t room with
    | nil => exact hwf
    | cons p rest =>
      exact doorFold_WF _ _ _ (WF_setTile _ _ _ _ hwf)

/-- A door search never erases a door already on the grid. -/
theorem findValidDoorPosition_preserves_door (rules : GenRules)
    (t : TileMap) (room : Room) (rng : Rng) (cx cy : Int) (hwf : WF t)
    (hdoor : t.getTile cx cy = some TileType.DOOR) :
    (findValidDoorPosition rules t room rng).2.1.getTile cx cy =
      some TileType.DOOR := by
  unfold findValidDoorPosition
  cases h1 : rules.room_types with
  | none => exact hdoor
  | some rts =>
    cases h2 : doorCandidatePositions t room with
    | nil => exact hdoor
    | cons p rest =>
      apply doorFold_preserves_door
      by_cases hc : cx = ((choiceNE p rest rng).1).1 ∧
          cy = ((choiceNE p rest rng).1).2
      · obtain ⟨hcx, hcy⟩ := hc
        subst hcx
        subst hcy
        have hmem : (choiceNE p rest rng).1 ∈ doorCandidatePositions t room := by
          rw [h2]
          exact choiceNE_mem p rest rng
        exact getTile_setTile_self _ _ _ _
          (doorCandidatePositions_valid t room _ hmem) hwf
      · rw [getTile_setTile_ne _ _ _ _ _ _ hc]
        exact hdoor

/-- Component form of `findValidDoorPosition_WF`. -/
theorem findValidDoorPosition_WF2 (rules : GenRules) (t : TileMap)
    (room : Room) (rng : Rng) (d : Option (Int × Int)) (t1 : TileMap)
    (r1 : Rng) (hwf : WF t)
    (h : findValidDoorPosition rules t room rng = (d, t1, r1)) : WF t1 := by
  have h2 := findValidDoorPosition_WF rules t room rng hwf
  rw [h] at h2
  exact h2

/-- Component form of `findValidDoorPosition_preserves_door`. -/
theorem findValidDoorPosition_preserves_door2 (rules : GenRules)
    (t : TileMap) (room : Room) (rng : Rng) (d : Option (Int × Int))
    (t1 : TileMap) (r1 : Rng) (cx cy : Int) (hwf : WF t)
    (hdoor : t.getTile cx cy = some TileType.DOOR)
    (h : findValidDoorPosition rules t room rng = (d, t1, r1)) :
    t1.getTile cx cy = some TileType.DOOR := by
  have h2 := findValidDoorPosition_preserves_door rules t room rng cx cy hwf
    hdoor
  rw [h] at h2
  exact h2

/-- The MST edge scan never erases a door stamped by an earlier (possibly
skipped) candidate edge. -/
theorem scanEdges_preserves_door (rules : GenRules) :
    ∀ (edges : List Edge) (t : TileMap) (connected : List Nat) (rng : Rng)
      (cx cy : Int), WF t → t.getTile cx cy = some TileType.DOOR →
      (scanEdges rules t edges connected rng).2.1.getTile cx cy =
        some TileType.DOOR := by
  intro edges
  induction edges with
  | nil =>
    intro t connected rng cx cy _ hdoor
    exact hdoor
  | cons e rest ih =>
    intro t connected rng cx cy hwf hdoor
    unfold scanEdges
    by_cases hbr : ((connected.any (fun i => decide (i = e.room1.id))) !=
        (connected.any (fun i => decide (i = e.room2.id)))) = true
    · rw [if_pos hbr]
      rcases hfd1 : findValidDoorPosition rules t e.room1 rng with
        ⟨d1, t1, rng1⟩
      have hwf1 := findValidDoorPosition_WF2 rules t e.room1 rng d1 t1 rng1
        hwf hfd1
      have hdoor1 := findValidDoorPosition_preserves_door2 rules t e.room1
        rng d1 t1 rng1 cx cy hwf hdoor hfd1
      simp only
      cases d1 with
      | none => exact ih t1 connected rng1 cx cy hwf1 hdoor1
      | some p1 =>
        simp only
        rcases hfd2 : findValidDoorPosition rules t1 e.room2 rng1 with
          ⟨d2, t2, rng2⟩
        have hwf2 := findValidDoorPosition_WF2 rules t1 e.room2 rng1 d2 t2
          rng2 hwf1 hfd2
        have hdoor2 := findValidDoorPosition_preserves_door2 rules t1
          e.room2 rng1 d2 t2 rng2 cx cy hwf1 hdoor1 hfd2
        simp only
        cases d2 with
        | none => exact ih t2 connected rng2 cx cy hwf2 hdoor2
        | some p2 =>
          simp only
          cases hfp : findPathGen t2 p1 p2 with
          | none => exact ih t2 connected rng2 cx cy hwf2 hdoor2
          | some path =>
            cases path with
            | nil => exact ih t2 connected rng2 cx cy hwf2 hdoor2
            | cons q qs => exact hdoor2
    · rw [if_neg hbr]
      exact ih t connected rng cx cy hwf hdoor

/-- Claim C10: door search is not side-effect free.  A successful
`_find_valid_door_position` stamps a door at the returned position and
floors every adjacent empty or wall tile; during the MST edge scan these
stamps happen for every candidate edge tried and persist even when the
edge is skipped because the second room offers no door position. -/
theorem door_search_mutates_and_persists (rules : GenRules) (t : TileMap)
    (rng : Rng) (e : Edge) (rest : List Edge) (connected : List Nat)
    (p1 : Int × Int) (t1 t2 : TileMap) (rng1 rng2 : Rng)
    (hwf : WF t)
    (hbridge : ((connected.any (fun i => decide (i = e.room1.id))) !=
        (connected.any (fun i => decide (i = e.room2.id)))) = true)
    (h1 : findValidDoorPosition rules t e.room1 rng = (some p1, t1, rng1))
    (h2 : findValidDoorPosition rules t1 e.room2 rng1 = (none, t2, rng2)) :
    (t1.getTile p1.1 p1.2 = some TileType.DOOR ∧
      ∀ d ∈ doorNeighbourDeltas, ∀ tile,
        t.getTile (p1.1 + d.1) (p1.2 + d.2) = some tile →
        (tile = TileType.EMPTY ∨ tile = TileType.WALL) →
        t1.getTile (p1.1 + d.1) (p1.2 + d.2) = some TileType.FLOOR) ∧
    t2 = t1 ∧
    (scanEdges rules t (e :: rest) connected rng).2.1.getTile p1.1 p1.2 =
      some TileType.DOOR := by
  have hspec := findValidDoorPosition_spec rules t e.room1 rng p1 t1 rng1
    hwf h1
  have hsame := findValidDoorPosition_none rules t1 e.room2 rng1 t2 rng2 h2
  refine ⟨hspec, hsame, ?_⟩
  unfold scanEdges
  rw [if_pos hbridge, h1]
  simp only
  rw [h2]
  simp only
  apply scanEdges_preserves_door
  · rw [hsame]
    exact findValidDoorPosition_WF2 rules t e.room1 rng (some p1) t1 rng1
      hwf h1
  · rw [hsame]
    exact hspec.1

/-- Claim C10 witness: in a 12 by 12 empty grid, scanning the single
(bridging, ultimately skipped) edge between a 3 by 3 room and a 2 by 2
room stamps a door at `(3, 1)` that persists in the scan result. -/
theorem door_search_mutates_and_persists_witness :
    (findValidDoorPosition sampleRules doorGrid roomBig zeroRng).2.1.getTile
      3 1 = some TileType.DOOR ∧
    (scanEdges sampleRules doorGrid [⟨0, roomBig, roomTiny⟩] [0]
      zeroRng).2.1.getTile 3 1 = some TileType.DOOR := by
  have h := door_search_mutates_and_persists sampleRules doorGrid zeroRng
    ⟨0, roomBig, roomTiny⟩ [] [0] (3, 1)
    (findValidDoorPosition sampleRules doorGrid roomBig zeroRng).2.1
    (findValidDoorPosition sampleRules doorGrid roomBig zeroRng).2.1
    (findValidDoorPosition sampleRules doorGrid roomBig zeroRng).2.2
    (findValidDoorPosition sampleRules doorGrid roomBig zeroRng).2.2
    (WF_new 12 12) (by decide) (by rfl) (by rfl)
  exact ⟨h.1.1, h.2.2⟩

/-! ### A*-loop lemmas and claim C3 (amended) -/

/-- Reading a dict after a write. -/
theorem lookupA_map_store {a b : Type} [DecidableEq a] (k : a) (v : b) :
    ∀ (l : List (a × b)) (k2 : a),
      lookupA (l.map (fun p => if p.1 = k then (k, v) else p)) k2 =
        if k2 = k then
          (if l.any (fun p => decide (p.1 = k)) then some v else none)
        else lookupA l k2 := by
  intro l
  induction l with
  | nil =>
    intro k2
    by_cases h : k2 = k <;> simp [lookupA, h]
  | cons p rest ih =>
    intro k2
    by_cases hp : p.1 = k
    · by_cases hk2 : k2 = k
      · rw [if_pos hk2]
        unfold lookupA
        rw [List.map_cons, if_pos hp,
          List.find?_cons_of_pos _ (by simp [hk2])]
        simp [List.any_cons, hp]
      · rw [if_neg hk2]
        unfold lookupA
        rw [List.map_cons, if_pos hp,
          List.find?_cons_of_neg _
            (by simp only [decide_eq_true_eq]; exact fun hc => hk2 hc.symm),
          List.find?_cons_of_neg _
            (by simp only [decide_eq_true_eq, hp]; exact fun hc => hk2 hc.symm)]
        have h2 := ih k2
        unfold lookupA at h2
        rw [if_neg hk2] at h2
        exact h2
    · by_cases hk2 : k2 = k
      · rw [if_pos hk2]
        subst hk2
        unfold lookupA
        rw [List.map_cons, if_neg hp,
          List.find?_cons_of_neg _
            (by simp only [decide_eq_true_eq]; exact hp)]
        have h2 := ih k2
        unfold lookupA at h2
        rw [if_pos rfl] at h2
        rw [h2, List.any_cons, decide_eq_false hp, Bool.false_or]
      · rw [if_neg hk2]
        unfold lookupA
        rw [List.map_cons, if_neg hp]
        by_cases hpk2 : p.1 = k2
        · rw [List.find?_cons_of_pos _ (by simp only [decide_eq_true_eq]; exact hpk2),
            List.find?_cons_of_pos _ (by simp only [decide_eq_true_eq]; exact hpk2)]
        · rw [List.find?_cons_of_neg _ (by simp only [decide_eq_true_eq]; exact hpk2),
            List.find?_cons_of_neg _ (by simp only [decide_eq_true_eq]; exact hpk2)]
          have h2 := ih k2
          unfold lookupA at h2
          rw [if_neg hk2] at h2
          exact h2

/-- Reading a dict after `updateA`. -/
theorem lookupA_updateA {a b : Type} [DecidableEq a]
    (l : List (a × b)) (k k2 : a) (v : b) :
    lookupA (updateA l k v) k2 =
      if k2 = k then some v else lookupA l k2 := by
  unfold updateA
  by_cases hany : l.any (fun p => decide (p.1 = k)) = true
  · rw [if_pos hany, lookupA_map_store, if_pos hany]
  · rw [if_neg hany]
    have hnone : lookupA l k = none := by
      unfold lookupA
      rw [List.find?_eq_none.mpr]
      · rfl
      · intro p hp
        simp only [decide_eq_true_eq]
        intro hc
        exact hany (List.any_eq_true.mpr ⟨p, hp, by simp [hc]⟩)
    unfold lookupA
    rw [List.find?_append]
    by_cases hk : k2 = k
    · rw [if_pos hk, hk]
      have hfn : l.find? (fun p => decide (p.1 = k)) = none := by
        unfold lookupA at hnone
        cases hf : l.find? (fun p => decide (p.1 = k)) with
        | none => rfl
        | some q =>
          rw [hf] at hnone
          exact Option.noConfusion hnone
      rw [hfn, List.find?_cons_of_pos _ (by simp)]
      rfl
    · rw [if_neg hk]
      cases hf2 : l.find? (fun p => decide (p.1 = k2)) with
      | none =>
        rw [List.find?_cons_of_neg _
          (by simp only [decide_eq_true_eq]; exact fun hc => hk hc.symm)]
        rfl
      | some q =>
        rfl

/-- `heappop` returns a member; the remainder is a subset. -/
theorem heapPop_spec (l : List PNode) (n : PNode) (rest : List PNode)
    (h : heapPop l = some (n, rest)) :
    n ∈ l ∧ ∀ m ∈ rest, m ∈ l := by
  unfold heapPop at h
  cases l with
  | nil => exact Option.noConfusion h
  | cons a tl =>
    simp only at h
    split at h
    · rename_i n2 heq
      simp only [Option.some.injEq, Prod.mk.injEq] at h
      obtain ⟨h1, h2⟩ := h
      subst h1
      constructor
      · exact List.mem_of_find?_eq_some heq
      · intro m hm
        rw [← h2] at hm
        exact List.eraseP_subset _ hm
    · exact Option.noConfusion h

/-- Invariant preservation through one A* relaxation fold. -/
theorem relaxFold_invariant (current : PNode) (gcur : Rat)
    (heur : (Int × Int) → Rat) (closed1 : List (Int × Int))
    (succs : List ((Int × Int) × Rat))
    (o : List PNode) (gs : List ((Int × Int) × Rat))
    (hP : ∀ n ∈ o, ∃ g, lookupA gs n.position = some g) :
    ∀ n ∈ (succs.foldl
      (fun (st : List PNode × List ((Int × Int) × Rat)) nc =>
        let (o, gs) := st
        if closed1.any (fun c => decide (c = nc.1)) then st
        else
          let tentative := gcur + nc.2
          let better := match lookupA gs nc.1 with
            | none => true
            | some gn => decide (tentative < gn)
          if better then
            (o ++ [PNode.mk (tentative + heur nc.1) nc.1 tentative
              (some current)], updateA gs nc.1 tentative)
          else st)
      (o, gs)).1, ∃ g,
        lookupA ((succs.foldl
          (fun (st : List PNode × List ((Int × Int) × Rat)) nc =>
            let (o, gs) := st
            if closed1.any (fun c => decide (c = nc.1)) then st
            else
              let tentative := gcur + nc.2
              let better := match lookupA gs nc.1 with
                | none => true
                | some gn => decide (tentative < gn)
              if better then
                (o ++ [PNode.mk (tentative + heur nc.1) nc.1 tentative
                  (some current)], updateA gs nc.1 tentative)
              else st)
          (o, gs)).2) n.position = some g := by
  induction succs generalizing o gs with
  | nil => exact hP
  | cons nc rest ih =>
    rw [List.foldl_cons]
    by_cases hc : closed1.any (fun c => decide (c = nc.1)) = true
    · simp only [if_pos hc]
      exact ih o gs hP
    · simp only [if_neg hc]
      by_cases hb : (match lookupA gs nc.1 with
          | none => true
          | some gn => decide (gcur + nc.2 < gn)) = true
      · simp only [hb, if_pos]
        apply ih
        intro n hn
        rcases List.mem_append.mp hn with hn2 | hn2
        · obtain ⟨g, hg⟩ := hP n hn2
          rw [lookupA_updateA]
          by_cases he : n.position = nc.1
          · exact ⟨gcur + nc.2, by rw [if_pos he]⟩
          · exact ⟨g, by rw [if_neg he]; exact hg⟩
        · simp only [List.mem_singleton] at hn2
          subst hn2
          rw [lookupA_updateA]
          exact ⟨gcur + nc.2, by simp [PNode.position]⟩
      · simp only [hb, Bool.false_eq_true, if_false]
        exact ih o gs hP

/-- The A* loop of the hierarchical pathfinder never raises: the g-score
dict always contains every open position (matching the source, where
`g_scores[current.position]` is always present). -/
theorem astarLoop_ok (succ : (Int × Int) → List ((Int × Int) × Rat))
    (heur : (Int × Int) → Rat) (goal : Int × Int) :
    ∀ (fuel : Nat) (openSet : List PNode) (closed : List (Int × Int))
      (gScores : List ((Int × Int) × Rat)),
      (∀ n ∈ openSet, ∃ g, lookupA gScores n.position = some g) →
      ∃ l, astarLoop succ heur goal fuel openSet closed gScores =
        Except.ok l := by
  intro fuel
  induction fuel with
  | zero =>
    intro o c gs _
    exact ⟨[], rfl⟩
  | succ fuel ih =>
    intro o c gs hinv
    cases hp : heapPop o with
    | none =>
      refine ⟨[], ?_⟩
      unfold astarLoop
      simp only [hp]
    | some pr =>
      obtain ⟨current, open1⟩ := pr
      obtain ⟨hcmem, hrest⟩ := heapPop_spec o current open1 hp
      by_cases hgoal : current.position = goal
      · refine ⟨current.chain.reverse, ?_⟩
        unfold astarLoop
        simp only [hp]
        rw [if_pos hgoal]
      · obtain ⟨gcur, hg⟩ := hinv current hcmem
        have hinv1 : ∀ n ∈ open1, ∃ g, lookupA gs n.position = some g :=
          fun n hn => hinv n (hrest n hn)
        have hfold := relaxFold_invariant current gcur heur
          (c ++ [current.position]) (succ current.position) open1 gs hinv1
        obtain ⟨l, hl⟩ := ih _ _ _ hfold
        refine ⟨l, ?_⟩
        unfold astarLoop
        simp only [hp]
        rw [if_neg hgoal]
        simp only [hg]
        exact hl

/-- `_abstract_path` never raises. -/
theorem abstractPath_ok (start goal : Int × Int)
    (grid : List (List Bool)) :
    ∃ l, abstractPath start goal grid = Except.ok l := by
  unfold abstractPath
  apply astarLoop_ok
  intro n hn
  simp only [List.mem_singleton] at hn
  subst hn
  exact ⟨0, by simp [lookupA, PNode.position]⟩

/-- `_detailed_path` never raises. -/
theorem detailedPath_ok (t : TileMap) (start goal : Int × Int) :
    ∃ l, detailedPath t start goal = Except.ok l := by
  unfold detailedPath
  apply astarLoop_ok
  intro n hn
  simp only [List.mem_singleton] at hn
  subst hn
  exact ⟨0, by simp [lookupA, PNode.position]⟩

/-- The refinement loop never raises and only appends to the path built
so far. -/
theorem refineHops_ok_prefix (t : TileMap) (cs : Int) (goal : Int × Int) :
    ∀ (hops : List ((Int × Int) × (Int × Int))) (fp : List (Int × Int))
      (cur : Int × Int),
      ∃ fp2 cur2, refineHops t cs goal hops fp cur =
        Except.ok (fp2, cur2) ∧ ∃ ext, fp2 = fp ++ ext := by
  intro hops
  induction hops with
  | nil =>
    intro fp cur
    exact ⟨fp, cur, rfl, [], by simp⟩
  | cons hop rest ih =>
    intro fp cur
    obtain ⟨cc, nc⟩ := hop
    unfold refineHops
    cases hcp : findCrossingPoints t cs cc nc with
    | nil => exact ih fp cur
    | cons c cs2 =>
      obtain ⟨l, hl⟩ := detailedPath_ok t cur (bestCrossing c cs2 goal)
      simp only
      rw [hl]
      cases l with
      | nil => exact ih fp cur
      | cons q qs =>
        obtain ⟨fp2, cur2, hrec, ext, hext⟩ := ih (fp ++ qs)
          (bestCrossing c cs2 goal)
        exact ⟨fp2, cur2, hrec, qs ++ ext, by rw [hext, List.append_assoc]⟩

/-- Claim C3 (amended): `find_path` never raises; it returns an empty
sequence exactly when the abstract tier finds no route; whenever the
abstract tier succeeds the result is nonempty and starts at `start`,
even when a detailed-tier search fails (including out-of-bounds
endpoints) — the failed leg is skipped rather than reported as an empty
result. -/
theorem findPathHier_failure_behaviour (cs : Int) (t : TileMap)
    (start goal : Int × Int) :
    exceptIsOk (findPathHier cs t start goal) = true ∧
    (abstractPath (start.1.fdiv cs, start.2.fdiv cs)
        (goal.1.fdiv cs, goal.2.fdiv cs) (createAbstractGrid t cs) =
        Except.ok [] →
      findPathHier cs t start goal = Except.ok []) ∧
    (∀ a as2, abstractPath (start.1.fdiv cs, start.2.fdiv cs)
        (goal.1.fdiv cs, goal.2.fdiv cs) (createAbstractGrid t cs) =
        Except.ok (a :: as2) →
      ∀ l, findPathHier cs t start goal = Except.ok l →
        ∃ rest, l = start :: rest) := by
  obtain ⟨l0, hl0⟩ := abstractPath_ok (start.1.fdiv cs, start.2.fdiv cs)
    (goal.1.fdiv cs, goal.2.fdiv cs) (createAbstractGrid t cs)
  refine ⟨?_, ?_, ?_⟩
  · unfold findPathHier
    simp only
    rw [hl0]
    cases l0 with
    | nil => rfl
    | cons a as2 =>
      obtain ⟨fp2, cur2, hrec, ext, hext⟩ := refineHops_ok_prefix t cs goal
        ((a :: as2).zip as2) [start] start
      simp only
      rw [hrec]
      obtain ⟨l2, hl2⟩ := detailedPath_ok t cur2 goal
      simp only
      rw [hl2]
      cases l2 with
      | nil => rfl
      | cons q qs => rfl
  · intro hempty
    unfold findPathHier
    simp only
    rw [hl0]
    rw [hempty] at hl0
    have : l0 = [] := by
      cases hl0
      rfl
    subst this
    rfl
  · intro a as2 hcons l hres
    rw [hcons] at hl0
    have hl0e : l0 = a :: as2 := by
      cases hl0
      rfl
    subst hl0e
    unfold findPathHier at hres
    simp only at hres
    rw [hcons] at hres
    obtain ⟨fp2, cur2, hrec, ext, hext⟩ := refineHops_ok_prefix t cs goal
      ((a :: as2).zip as2) [start] start
    simp only at hres
    rw [hrec] at hres
    obtain ⟨l2, hl2⟩ := detailedPath_ok t cur2 goal
    simp only at hres
    rw [hl2] at hres
    cases l2 with
    | nil =>
      simp only [Except.ok.injEq] at hres
      exact ⟨ext, by rw [← hres, hext]; rfl⟩
    | cons q qs =>
      simp only [Except.ok.injEq] at hres
      exact ⟨ext ++ qs, by rw [← hres, hext]; simp⟩

/-- Claim C3 witness: the amended theorem at a concrete input whose
abstract tier fails (out-of-bounds start in `blockedGrid`), giving the
empty result. -/
theorem findPathHier_failure_behaviour_witness :
    findPathHier 16 blockedGrid (-1, 0) (2, 0) = Except.ok [] :=
  (findPathHier_failure_behaviour 16 blockedGrid (-1, 0) (2, 0)).2.1
    (by with_unfolding_all rfl)

/-! ### Room-catalog preservation and claim C2 -/

/-- `set_tile` leaves the room catalog unchanged (component form). -/
theorem setTile_rooms (t : TileMap) (x y : Int) (v : TileType) :
    (t.setTile x y v).rooms = t.rooms :=
  (setTile_fields t x y v).2.2

/-- A fold of room-preserving grid steps preserves the room catalog. -/
theorem foldl_rooms_eq {a : Type} (f : TileMap → a → TileMap)
    (hf : ∀ t c, (f t c).rooms = t.rooms) :
    ∀ (l : List a) (t : TileMap), (l.foldl f t).rooms = t.rooms := by
  intro l
  induction l with
  | nil => intro t; rfl
  | cons c cs ih => intro t; rw [List.foldl_cons, ih, hf]

/-- A fold of room-preserving grid-and-rng steps preserves the room
catalog. -/
theorem foldl_pair_rooms_eq {a : Type} (f : TileMap × Rng → a → TileMap × Rng)
    (hf : ∀ st c, (f st c).1.rooms = st.1.rooms) :
    ∀ (l : List a) (st : TileMap × Rng), (l.foldl f st).1.rooms = st.1.rooms := by
  intro l
  induction l with
  | nil => intro st; rfl
  | cons c cs ih => intro st; rw [List.foldl_cons, ih, hf]

/-- Floor stamping of a room interior leaves the room catalog alone. -/
theorem stampRoomFloors_rooms (t : TileMap) (x y w h : Int) :
    (stampRoomFloors t x y w h).rooms = t.rooms := by
  unfold stampRoomFloors
  exact foldl_rooms_eq _
    (fun t1 rx => foldl_rooms_eq _ (fun t2 ry => setTile_rooms t2 rx ry _) _ t1)
    _ t

/-- Wall stamping of a room perimeter leaves the room catalog alone. -/
theorem stampRoomWalls_rooms (t : TileMap) (x y w h : Int) :
    (stampRoomWalls t x y w h).rooms = t.rooms := by
  unfold stampRoomWalls
  exact Eq.trans
    (foldl_rooms_eq _
      (fun tt ry => Eq.trans (setTile_rooms _ _ _ _) (setTile_rooms tt _ _ _))
      _ _)
    (foldl_rooms_eq _
      (fun tt rx => Eq.trans (setTile_rooms _ _ _ _) (setTile_rooms tt _ _ _))
      _ t)

/-- The neighbour-flooring step of a door search leaves the room catalog
alone. -/
theorem doorFloorStep_rooms (pos : Int × Int) (tt : TileMap) (d : Int × Int) :
    (doorFloorStep pos tt d).rooms = tt.rooms := by
  unfold doorFloorStep
  split
  · exact setTile_rooms _ _ _ _
  · exact setTile_rooms _ _ _ _
  · rfl

/-- A door search leaves the room catalog alone. -/
theorem findValidDoorPosition_rooms (rules : GenRules) (t : TileMap)
    (room : Room) (rng : Rng) :
    (findValidDoorPosition rules t room rng).2.1.rooms = t.rooms := by
  unfold findValidDoorPosition
  cases h1 : rules.room_types with
  | none => rfl
  | some rts =>
    cases h2 : doorCandidatePositions t room with
    | nil => rfl
    | cons p rest =>
      exact Eq.trans
        (foldl_rooms_eq _ (fun tt d => doorFloorStep_rooms _ tt d)
          doorNeighbourDeltas _)
        (setTile_rooms t _ _ _)

/-- Corridor carving leaves the room catalog alone. -/
theorem carveCorridor_rooms (t : TileMap) (rooms : List Room)
    (path : List (Int × Int)) :
    (carveCorridor t rooms path).rooms = t.rooms := by
  unfold carveCorridor
  refine foldl_rooms_eq _ ?_ path t
  intro tt pos
  split
  · rfl
  · refine Eq.trans (foldl_rooms_eq _ ?_ _ _) (setTile_rooms tt _ _ _)
    intro tt2 d
    simp only
    split
    · exact setTile_rooms _ _ _ _
    · rfl

/-- Redundant-corridor floor stamping leaves the room catalog alone. -/
theorem stampFloorsOnPath_rooms (t : TileMap) (rooms : List Room)
    (path : List (Int × Int)) :
    (stampFloorsOnPath t rooms path).rooms = t.rooms := by
  unfold stampFloorsOnPath
  refine foldl_rooms_eq _ ?_ path t
  intro tt pos
  split
  · rfl
  · exact setTile_rooms _ _ _ _

/-- The no-usable-edge fallback leaves the room catalog alone. -/
theorem fallbackDoors_rooms (rules : GenRules) (t : TileMap)
    (rooms : List Room) (remaining : List Nat) (rng : Rng) :
    (fallbackDoors rules t rooms remaining rng).1.rooms = t.rooms := by
  unfold fallbackDoors
  refine foldl_pair_rooms_eq _ ?_ _ (t, rng)
  intro st r
  rcases hfd : findValidDoorPosition rules st.1 r st.2 with ⟨d, t1, rng1⟩
  have ht1 : t1.rooms = st.1.rooms := by
    have h := findValidDoorPosition_rooms rules st.1 r st.2
    rw [hfd] at h
    exact h
  cases d with
  | none => exact ht1
  | some p => exact Eq.trans (setTile_rooms t1 _ _ _) ht1

/-- The MST edge scan leaves the room catalog alone. -/
theorem scanEdges_rooms (rules : GenRules) :
    ∀ (edges : List Edge) (t : TileMap) (connected : List Nat) (rng : Rng),
      (scanEdges rules t edges connected rng).2.1.rooms = t.rooms := by
  intro edges
  induction edges with
  | nil => intro t c rng; rfl
  | cons e rest ih =>
    intro t c rng
    unfold scanEdges
    by_cases hbr : ((c.any (fun i => decide (i = e.room1.id))) !=
        (c.any (fun i => decide (i = e.room2.id)))) = true
    · rw [if_pos hbr]
      rcases hfd1 : findValidDoorPosition rules t e.room1 rng with
        ⟨d1, t1, rng1⟩
      have ht1 : t1.rooms = t.rooms := by
        have h := findValidDoorPosition_rooms rules t e.room1 rng
        rw [hfd1] at h
        exact h
      simp only
      cases d1 with
      | none => rw [ih, ht1]
      | some p1 =>
        simp only
        rcases hfd2 : findValidDoorPosition rules t1 e.room2 rng1 with
          ⟨d2, t2, rng2⟩
        have ht2 : t2.rooms = t.rooms := by
          have h := findValidDoorPosition_rooms rules t1 e.room2 rng1
          rw [hfd2] at h
          exact h.trans ht1
        simp only
        cases d2 with
        | none => rw [ih, ht2]
        | some p2 =>
          simp only
          cases hfp : findPathGen t2 p1 p2 with
          | none => rw [ih, ht2]
          | some path =>
            cases path with
            | nil => rw [ih, ht2]
            | cons q qs => exact ht2
    · rw [if_neg hbr]
      exact ih t c rng

/-- Recording a connection changes only the `connections` field: the
geometric footprints of the room catalog are untouched. -/
theorem addConnectionById_geom (t : TileMap) (i j : Nat) :
    (addConnectionById t i j).rooms.map geomOf = t.rooms.map geomOf := by
  unfold addConnectionById
  simp only [List.map_map]
  apply List.map_congr_left
  intro r _
  simp only [Function.comp]
  split
  · rfl
  · split
    · rfl
    · rfl

/-- The MST loop never changes the geometric footprints of the room
catalog. -/
theorem mstLoop_geom (rules : GenRules) (edges : List Edge)
    (rooms : List Room) :
    ∀ (fuel : Nat) (t : TileMap) (connected remaining : List Nat) (rng : Rng),
      (mstLoop rules t edges rooms fuel connected remaining rng).1.rooms.map
        geomOf = t.rooms.map geomOf := by
  intro fuel
  induction fuel with
  | zero => intro t c rem rng; rfl
  | succ fuel ih =>
    intro t c rem rng
    unfold mstLoop
    cases rem with
    | nil => rfl
    | cons r0 rs =>
      rcases hscan : scanEdges rules t edges c rng with ⟨res, t1, rng1⟩
      have ht1 : t1.rooms = t.rooms := by
        have h := scanEdges_rooms rules edges t c rng
        rw [hscan] at h
        exact h
      simp only
      cases res with
      | none =>
        simp only
        rw [fallbackDoors_rooms, ht1]
      | some epq =>
        rcases epq with ⟨e, p1, p2⟩
        simp only
        cases hfp : findPathGen t1 p1 p2 with
        | none => rw [ih, ht1]
        | some path =>
          cases path with
          | nil => rw [ih, ht1]
          | cons q qs =>
            simp only
            rw [ih, addConnectionById_geom, setTile_rooms, setTile_rooms,
              carveCorridor_rooms, ht1]

/-- One redundant-connection attempt leaves the room catalog alone. -/
theorem redundantStep_rooms (rules : GenRules) (rooms : List Room)
    (st : TileMap × Rng) (e : Edge) :
    (redundantStep rules rooms st e).1.rooms = st.1.rooms := by
  obtain ⟨t, rng⟩ := st
  unfold redundantStep
  simp only
  rcases hrf : randFloat rng with ⟨coin, rng1⟩
  try simp only
  split
  · rcases hf1 : findValidDoorPosition rules t e.room1 rng1 with
      ⟨d1, t1, rng2⟩
    have ht1 : t1.rooms = t.rooms := by
      have h := findValidDoorPosition_rooms rules t e.room1 rng1
      rw [hf1] at h
      exact h
    try simp only
    rcases hf2 : findValidDoorPosition rules t1 e.room2 rng2 with
      ⟨d2, t2, rng3⟩
    have ht2 : t2.rooms = t.rooms := by
      have h := findValidDoorPosition_rooms rules t1 e.room2 rng2
      rw [hf2] at h
      exact h.trans ht1
    try simp only
    cases d1 with
    | none => exact ht2
    | some p1 =>
      cases d2 with
      | none => exact ht2
      | some p2 =>
        try simp only
        cases hfp : findPathGen t2 p1 p2 with
        | none => exact ht2
        | some path =>
          cases path with
          | nil => exact ht2
          | cons q qs => exact Eq.trans (stampFloorsOnPath_rooms t2 rooms _) ht2
  · rfl

/-- `_connect_rooms` never changes the geometric footprints of the room
catalog. -/
theorem connectRooms_geom (rules : GenRules) (t : TileMap)
    (rooms : List Room) (rng : Rng) :
    (connectRooms rules t rooms rng).1.rooms.map geomOf =
      t.rooms.map geomOf := by
  cases rooms with
  | nil => rfl
  | cons r0 rest =>
    unfold connectRooms
    simp only
    rw [foldl_pair_rooms_eq _
      (fun st e => redundantStep_rooms rules (r0 :: rest) st e)]
    exact mstLoop_geom rules (sortEdges (buildEdges (r0 :: rest)))
      (r0 :: rest) (r0 :: rest).length t [r0.id]
      (rest.map (fun r => r.id)) rng

/-- Entrance and exit stamping leaves the room catalog alone. -/
theorem addSectorConnections_rooms (rules : GenRules) (t : TileMap)
    (rooms : List Room) (rng : Rng) :
    (addSectorConnections rules t rooms rng).1.rooms = t.rooms := by
  unfold addSectorConnections
  cases rooms with
  | nil => rfl
  | cons r0 rest =>
    simp only
    rcases hch : choiceNE r0 rest rng with ⟨entrance, rng1⟩
    try simp only
    cases hfil : (r0 :: rest).filter (fun r => decide (¬ (r.id = entrance.id)))
        with
    | nil => rfl
    | cons o os =>
      try simp only
      rcases hch2 : choiceNE o os rng1 with ⟨exitRoom, rng2⟩
      try simp only
      rcases hf1 : findValidDoorPosition rules t entrance rng2 with
        ⟨d1, t1, rng3⟩
      have ht1 : t1.rooms = t.rooms := by
        have h := findValidDoorPosition_rooms rules t entrance rng2
        rw [hf1] at h
        exact h
      try simp only
      cases d1 with
      | none =>
        try simp only
        rcases hf2 : findValidDoorPosition rules t1 exitRoom rng3 with
          ⟨d2, t2, rng4⟩
        have ht2 : t2.rooms = t.rooms := by
          have h := findValidDoorPosition_rooms rules t1 exitRoom rng3
          rw [hf2] at h
          exact h.trans ht1
        cases d2 with
        | none => exact ht2
        | some p2 => exact Eq.trans (setTile_rooms t2 _ _ _) ht2
      | some p1 =>
        try simp only
        rcases hf2 : findValidDoorPosition rules (t1.setTile p1.1 p1.2
            TileType.DOOR) exitRoom rng3 with ⟨d2, t2, rng4⟩
        have ht2 : t2.rooms = t.rooms := by
          have h := findValidDoorPosition_rooms rules
            (t1.setTile p1.1 p1.2 TileType.DOOR) exitRoom rng3
          rw [hf2] at h
          exact h.trans (Eq.trans (setTile_rooms t1 _ _ _) ht1)
        cases d2 with
        | none => exact ht2
        | some p2 => exact Eq.trans (setTile_rooms t2 _ _ _) ht2

/-- A rejected overlap test yields the acceptance-time separation: when
the padded-overlap check of `_generate_rooms` is false, the existing room
and the candidate room are separated. -/
theorem overlapsPadded_false_sep (x y w h : Int) (r : Room) (rid : Nat)
    (rt : String) (hov : overlapsPadded x y w h r = false) :
    sepR r ⟨rid, rt, x, y, w, h, [], []⟩ := by
  simp only [overlapsPadded, Bool.and_eq_false_imp, Bool.and_eq_true,
    decide_eq_true_eq, decide_eq_false_iff_not, not_lt] at hov
  simp only [sepR, sepG, geomOf]
  omega

/-- Acceptance-time separation (distance at least 4 between rectangles)
implies the claimed 1-padding disjointness. -/
theorem sepR_imp_paddedDisjoint (a b : Room) (hs : sepR a b) :
    paddedDisjoint a b := by
  intro px py hc
  obtain ⟨h1, h2⟩ := hc
  simp only [inPadded] at h1 h2
  simp only [sepR, sepG, geomOf] at hs
  omega

/-- Transfer of pairwise separation along an equality of footprint
lists. -/
theorem pairwise_geom_transfer (l rooms : List Room)
    (hmap : l.map geomOf = rooms.map geomOf)
    (hpw : List.Pairwise sepR rooms) :
    List.Pairwise paddedDisjoint l := by
  have h1 : List.Pairwise sepG (rooms.map geomOf) := by
    rw [List.pairwise_map]
    exact hpw
  rw [← hmap, List.pairwise_map] at h1
  exact h1.imp (fun hab => sepR_imp_paddedDisjoint _ _ hab)

/-- The room-placement loop invariant: the grid room catalog tracks the
accepted-room list, and accepted rooms are pairwise separated (every
candidate surviving the padded-overlap check is separated from every
previously accepted room). -/
theorem generateRoomsLoop_inv (rules : GenRules)
    (room_weights : List (String × Rat)) (mn mx : Int) :
    ∀ (fuel : Nat) (t : TileMap) (rooms : List Room) (rid : Nat) (rng : Rng),
      t.rooms = rooms → List.Pairwise sepR rooms →
      (generateRoomsLoop rules room_weights mn mx fuel t rooms rid
          rng).1.rooms =
        (generateRoomsLoop rules room_weights mn mx fuel t rooms rid
          rng).2.1 ∧
      List.Pairwise sepR
        (generateRoomsLoop rules room_weights mn mx fuel t rooms rid
          rng).2.1 := by
  intro fuel
  induction fuel with
  | zero => intro t rooms rid rng ht hpw; exact ⟨ht, hpw⟩
  | succ fuel ih =>
    intro t rooms rid rng ht hpw
    unfold generateRoomsLoop
    split
    · split
      · exact ⟨ht, hpw⟩
      · rename_i room_type rng1 hrc
        split
        · exact ⟨ht, hpw⟩
        · split
          · exact ⟨ht, hpw⟩
          · split
            · split
              · split
                · exact ⟨ht, hpw⟩
                · rename_i w rng2 hri1
                  split
                  · exact ⟨ht, hpw⟩
                  · rename_i h rng3 hri2
                    split
                    · exact ⟨ht, hpw⟩
                    · rename_i x rng4 hri3
                      split
                      · exact ⟨ht, hpw⟩
                      · rename_i y rng5 hri4
                        split
                        · exact ih _ _ _ _ ht hpw
                        · rename_i hany0
                          have hall : ∀ r ∈ rooms,
                              sepR r ⟨rid, room_type, x, y, w, h, [], []⟩ := by
                            intro r hr
                            apply overlapsPadded_false_sep
                            cases hb : overlapsPadded x y w h r with
                            | false => rfl
                            | true =>
                              exact absurd (List.any_eq_true.mpr ⟨r, hr, hb⟩)
                                hany0
                          have hpw2 : List.Pairwise sepR
                              (rooms ++ [⟨rid, room_type, x, y, w, h, [], []⟩])
                              := by
                            rw [List.pairwise_append]
                            refine ⟨hpw, by simp, ?_⟩
                            intro a ha b hb
                            rw [List.mem_singleton] at hb
                            subst hb
                            exact hall a ha
                          have htC :
                              (stampRoomWalls (stampRoomFloors t x y w h)
                                  x y w h).rooms ++
                                [(⟨rid, room_type, x, y, w, h, [], []⟩ :
                                  Room)] =
                              rooms ++
                                [⟨rid, room_type, x, y, w, h, [], []⟩] := by
                            rw [stampRoomWalls_rooms, stampRoomFloors_rooms,
                              ht]
                          simp only
                          split
                          · rcases hcoin : randFloat rng5 with ⟨coin, rng6⟩
                            try simp only
                            split
                            · exact ⟨htC, hpw2⟩
                            · exact ih _ _ _ _ htC hpw2
                          · exact ih _ _ _ _ htC hpw2
              · exact ⟨ht, hpw⟩
            · exact ⟨ht, hpw⟩
    · exact ⟨ht, hpw⟩

/-- The generated-sector body preserves pairwise padded disjointness of
the room catalog. -/
theorem generateBody_pairwise (g : Generator)
    (room_weights : List (String × Rat)) (t0 : TileMap)
    (mn mx : Option Int) (rng : Rng) (ht0 : t0.rooms = []) :
    List.Pairwise paddedDisjoint
      (generateBody g room_weights t0 mn mx rng).1.rooms := by
  unfold generateBody
  simp only
  have hinv := generateRoomsLoop_inv g.rules room_weights (orDefault mn 5)
    (orDefault mx 15) 100 t0 [] 0 rng ht0 List.Pairwise.nil
  rcases hgr : generateRooms g.rules t0 room_weights (orDefault mn 5)
      (orDefault mx 15) rng with ⟨t1, rooms, rng1⟩
  unfold generateRooms at hgr
  rw [hgr] at hinv
  have ht1 : t1.rooms = rooms := hinv.1
  have hpw : List.Pairwise sepR rooms := hinv.2
  try simp only
  rcases hcr : connectRooms g.rules t1 rooms rng1 with ⟨t2, rng2⟩
  have ht2 : t2.rooms.map geomOf = rooms.map geomOf := by
    have hc := connectRooms_geom g.rules t1 rooms rng1
    rw [hcr] at hc
    rw [hc, ht1]
  try simp only
  split
  · rw [addSectorConnections_rooms]
    exact pairwise_geom_transfer t2.rooms rooms ht2 hpw
  · exact pairwise_geom_transfer t2.rooms rooms ht2 hpw

/-- Claim C2: in every grid returned by `generate_sector`, the rooms of
the room catalog are pairwise disjoint even after each rectangle is
enlarged by the 1-tile padding border (so no two rooms share any tile,
wall tiles included): the padded-overlap check of `_generate_rooms`
enforces a 4-tile separation at acceptance time and no later phase moves
or resizes a recorded room. -/
theorem generateSector_padded_disjoint (g : Generator)
    (width height : Int) (theme : Option String) (mn mx : Option Int)
    (cr : Option Rat) (rng : Rng) (out : TileMap) (rng2 : Rng)
    (hok : generateSector g width height theme mn mx cr rng =
      Except.ok (out, rng2)) :
    List.Pairwise paddedDisjoint out.rooms := by
  unfold generateSector at hok
  split at hok
  · exact Except.noConfusion hok
  · simp only at hok
    cases cr with
    | some c =>
      try simp only at hok
      split at hok
      · simp only [Except.ok.injEq, Prod.mk.injEq] at hok
        rw [← hok.1]
        exact List.Pairwise.nil
      · simp only [Except.ok.injEq] at hok
        have hfst : _ = out := congrArg Prod.fst hok
        rw [← hfst]
        exact generateBody_pairwise g _ (TileMap.new width height) mn mx rng
          rfl
    | none =>
      try simp only at hok
      simp only [Except.ok.injEq] at hok
      have hfst : _ = out := congrArg Prod.fst hok
      rw [← hfst]
      exact generateBody_pairwise g _ (TileMap.new width height) mn mx rng
        rfl

/-- Claim C2 witness: the theorem applied to a concrete successful call
(the single-weight corridor-ratio shortcut, which returns the fresh 9 by
9 grid). -/
theorem generateSector_padded_disjoint_witness :
    List.Pairwise paddedDisjoint (TileMap.new 9 9).rooms :=
  generateSector_padded_disjoint sampleGen 9 9 (some "z") (some 1) (some 1)
    (some ((1 : Rat) / 2)) zeroRng (TileMap.new 9 9) zeroRng (by rfl)

end Mega
